import Mathlib

/-! viper-template: template generation from a Go struct declaration

A shallow embedding of `src/main.go`:

* `Value`, `Document`       : the `interface{}` values and `map[string]interface{}` documents
* `mergeMapValues`          : the overlay of an existing template on a fresh one
* `TypeTree`, `TypeTree.ToMap` : the `Type` tree and its projection to a document
* `parseStructType`          : the resolver from a `go/ast` struct type to a `Type` tree
* `findRootTypeSpec`, `mainAction` : the search for the root type and the action of `main`

Go maps are modelled by association lists that are read and written by key
(`Document.get?`, `Document.index`, `Document.set`).  A list stands for a Go map
when its keys are pairwise distinct at every level (`Document.wf`).

Go strings are byte strings: a `String` holds one `Char` per byte, so its length
is the Go `len` and a slice of it is a slice of bytes.
-/

namespace ViperTemplate

/-! ## Documents -/

/-- Go `interface{}` values that occur in a template document: the nil interface
(JSON `null`, and a `TemplateDefaultValue` that was never assigned), `bool`,
`float64` (carried as an integer payload: no modelled function looks inside a
number), `string`, `[]interface{}` and `map[string]interface{}`. -/
inductive Value where
  | nil
  | bool (b : Bool)
  | number (n : Int)
  | string (s : String)
  | array (xs : List Value)
  | object (m : List (String × Value))

/-- Go `map[string]interface{}`. -/
abbrev Document := List (String × Value)

mutual
/-- Structural equality test on values. -/
def Value.beq : Value → Value → Bool
  | .nil, .nil => true
  | .bool a, .bool b => decide (a = b)
  | .number a, .number b => decide (a = b)
  | .string a, .string b => decide (a = b)
  | .array a, .array b => Value.beqList a b
  | .object a, .object b => Value.beqDoc a b
  | _, _ => false
/-- Structural equality test on slices of values. -/
def Value.beqList : List Value → List Value → Bool
  | [], [] => true
  | x :: xs, y :: ys => Value.beq x y && Value.beqList xs ys
  | _, _ => false
/-- Structural equality test on documents. -/
def Value.beqDoc : List (String × Value) → List (String × Value) → Bool
  | [], [] => true
  | (k, x) :: xs, (l, y) :: ys => decide (k = l) && Value.beq x y && Value.beqDoc xs ys
  | _, _ => false
end

mutual
theorem Value.beq_iff : ∀ (a b : Value), Value.beq a b = true ↔ a = b
  | .nil, b => by cases b <;> simp [Value.beq]
  | .bool _, b => by cases b <;> simp [Value.beq]
  | .number _, b => by cases b <;> simp [Value.beq]
  | .string _, b => by cases b <;> simp [Value.beq]
  | .array xs, b => by
    cases b <;> simp [Value.beq]
    exact Value.beqList_iff xs _
  | .object m, b => by
    cases b <;> simp [Value.beq]
    exact Value.beqDoc_iff m _
theorem Value.beqList_iff : ∀ (a b : List Value), Value.beqList a b = true ↔ a = b
  | [], b => by cases b <;> simp [Value.beqList]
  | x :: xs, b => by
    cases b with
    | nil => simp [Value.beqList]
    | cons y ys => simp [Value.beqList, Value.beq_iff x y, Value.beqList_iff xs ys]
theorem Value.beqDoc_iff : ∀ (a b : List (String × Value)), Value.beqDoc a b = true ↔ a = b
  | [], b => by cases b <;> simp [Value.beqDoc]
  | (k, x) :: xs, b => by
    cases b with
    | nil => simp [Value.beqDoc]
    | cons y ys =>
      obtain ⟨l, y⟩ := y
      simp [Value.beqDoc, Value.beq_iff x y, Value.beqDoc_iff xs ys, and_assoc]
end

instance : DecidableEq Value := fun a b => decidable_of_iff _ (Value.beq_iff a b)

/-- Go type test `v.(map[string]interface{})` used by the type switches. -/
def Value.isObject : Value → Bool
  | .object _ => true
  | _ => false

/-- Comma-ok map read `v, ok := m[k]`: the value bound to `k`, if `k` is a key. -/
def Document.get? : Document → String → Option Value
  | [], _ => none
  | (k', v) :: rest, k => if k' = k then some v else Document.get? rest k

/-- Go map read `m[k]`: the value bound to `k`, the nil interface when `k` is no key. -/
def Document.index (m : Document) (k : String) : Value :=
  (m.get? k).getD Value.nil

/-- Go map write `m[k] = v`: rebinds `k` when it is a key, adds the entry otherwise. -/
def Document.set : Document → String → Value → Document
  | [], k, v => [(k, v)]
  | (k', v') :: rest, k, v =>
    if k' = k then (k', v) :: rest else (k', v') :: Document.set rest k v

/-- Keys of a map, one per entry. -/
def Document.keys (m : Document) : List String := m.map Prod.fst

mutual
/-- Every map inside the value has pairwise distinct keys. -/
def Value.wf : Value → Bool
  | .array xs => Value.wfList xs
  | .object m => Document.wf m
  | _ => true
/-- Every element of the slice is well formed. -/
def Value.wfList : List Value → Bool
  | [] => true
  | x :: xs => Value.wf x && Value.wfList xs
/-- The list stands for a Go map: no key occurs twice, at this level and below. -/
def Document.wf : List (String × Value) → Bool
  | [] => true
  | (k, v) :: rest => !(rest.any (fun e => decide (e.1 = k))) && Value.wf v && Document.wf rest
end

mutual
/-- Go: `func mergeMapValues(a, b map[string]interface{})`, as the map left in `a`.
The `range` loop visits every entry of `a` once; the entry of key `k` holds `a[k]`. -/
def mergeMapValues : Document → Document → Document
  | [], _ => []
  | (k, ak) :: rest, b => (k, mergeValue ak (Document.index b k)) :: mergeMapValues rest b
/-- Body of the loop of `mergeMapValues` at one key, from `a[k]` and `b[k]` to the
value left in `a[k]`.  First `case`: `a[k]` is a map, merged in place with `b[k]`
when that is a map too (a map is never the nil interface), left alone otherwise.
`default`: `a[k]` is replaced by `b[k]` when `b[k] != nil`. -/
def mergeValue : Value → Value → Value
  | .object amap, .object bmap => .object (mergeMapValues amap bmap)
  | .object amap, _ => .object amap
  | ak, .nil => ak
  | _, bk => bk
end

/-! ## Struct tags (`reflect.StructTag`, `strconv.Unquote`)

Go strings are byte strings.  A `String` of this file holds one `Char` per byte
(the code points 0 to 255): an ASCII string is written as it reads, and a
character outside ASCII is written as the bytes of its UTF-8 encoding. -/

/-- Go `strconv`: value of a hexadecimal digit. -/
def unhex (c : Char) : Option Nat :=
  if '0' ≤ c ∧ c ≤ '9' then some (c.toNat - '0'.toNat)
  else if 'a' ≤ c ∧ c ≤ 'f' then some (c.toNat - 'a'.toNat + 10)
  else if 'A' ≤ c ∧ c ≤ 'F' then some (c.toNat - 'A'.toNat + 10)
  else none

/-- Reads `n` hexadecimal digits, most significant first, onto the accumulator `v`. -/
def readHex : Nat → List Char → Nat → Option (Nat × List Char)
  | 0, s, v => some (v, s)
  | _ + 1, [], _ => none
  | n + 1, c :: s, v =>
    match unhex c with
    | some x => readHex n s (v * 16 + x)
    | none => none

/-- Reads `n` octal digits, most significant first, onto the accumulator `v`. -/
def readOctal : Nat → List Char → Nat → Option (Nat × List Char)
  | 0, s, v => some (v, s)
  | _ + 1, [], _ => none
  | n + 1, c :: s, v =>
    if '0' ≤ c ∧ c ≤ '7' then readOctal n s (v * 8 + (c.toNat - '0'.toNat)) else none

/-- The byte lies in the range `lo` to `hi`. -/
def byteIn (c : Char) (lo hi : Nat) : Bool :=
  decide (lo ≤ c.toNat ∧ c.toNat ≤ hi)

/-- A well-formed UTF-8 sequence of two to four bytes that opens with the byte `s0`
and continues in `rest`: the rune it encodes and the bytes after it; `none` when
the bytes are no such sequence (the table `first` and the `acceptRanges` of Go
`unicode/utf8`). -/
def decodeRune? (s0 : Char) (rest : List Char) : Option (Nat × List Char) :=
  let b0 := s0.toNat
  if 0xC2 ≤ b0 ∧ b0 ≤ 0xDF then
    match rest with
    | s1 :: t =>
      if byteIn s1 0x80 0xBF then some ((b0 % 32) * 64 + s1.toNat % 64, t) else none
    | _ => none
  else if 0xE0 ≤ b0 ∧ b0 ≤ 0xEF then
    match rest with
    | s1 :: s2 :: t =>
      if byteIn s1 (if b0 = 0xE0 then 0xA0 else 0x80) (if b0 = 0xED then 0x9F else 0xBF)
          ∧ byteIn s2 0x80 0xBF then
        some (((b0 % 16) * 64 + s1.toNat % 64) * 64 + s2.toNat % 64, t)
      else none
    | _ => none
  else if 0xF0 ≤ b0 ∧ b0 ≤ 0xF4 then
    match rest with
    | s1 :: s2 :: s3 :: t =>
      if byteIn s1 (if b0 = 0xF0 then 0x90 else 0x80) (if b0 = 0xF4 then 0x8F else 0xBF)
          ∧ byteIn s2 0x80 0xBF ∧ byteIn s3 0x80 0xBF then
        some ((((b0 % 8) * 64 + s1.toNat % 64) * 64 + s2.toNat % 64) * 64 + s3.toNat % 64, t)
      else none
    | _ => none
  else none

/-- Go `utf8.DecodeRuneInString` on a string that opens with a byte of 0x80 or more:
the rune and the bytes after it; an ill-formed sequence gives `RuneError` (U+FFFD)
and consumes one byte. -/
def decodeRune (s0 : Char) (rest : List Char) : Nat × List Char :=
  (decodeRune? s0 rest).getD (0xFFFD, rest)

/-- Go `utf8.ValidString`, with one unit of fuel per byte. -/
def validString : Nat → List Char → Bool
  | _, [] => true
  | 0, _ :: _ => false
  | fuel + 1, c :: s =>
    if c.toNat < 0x80 then validString fuel s
    else
      match decodeRune? c s with
      | some (_, t) => validString fuel t
      | none => false

/-- Go `utf8.AppendRune`: the UTF-8 bytes of a rune, those of `RuneError` for a
surrogate or a value above U+10FFFF. -/
def encodeRune (r : Nat) : List Char :=
  if r ≤ 0x7F then [Char.ofNat r]
  else if r ≤ 0x7FF then [Char.ofNat (0xC0 + r / 64), Char.ofNat (0x80 + r % 64)]
  else if 0x10FFFF < r ∨ (0xD800 ≤ r ∧ r ≤ 0xDFFF) then
    [Char.ofNat 0xEF, Char.ofNat 0xBF, Char.ofNat 0xBD]
  else if r ≤ 0xFFFF then
    [Char.ofNat (0xE0 + r / 4096), Char.ofNat (0x80 + r / 64 % 64), Char.ofNat (0x80 + r % 64)]
  else
    [Char.ofNat (0xF0 + r / 262144), Char.ofNat (0x80 + r / 4096 % 64),
      Char.ofNat (0x80 + r / 64 % 64), Char.ofNat (0x80 + r % 64)]

/-- Go `strconv.UnquoteChar(s, quote)`: the value of the first character or escape
sequence of `s`, whether it is a multibyte rune, and the remaining tail; `none`
for `ErrSyntax`.  A `\x` or octal escape is a single byte, not a rune. -/
def unquoteChar (s : List Char) (quote : Char) : Option (Nat × Bool × List Char) :=
  match s with
  | [] => none
  | c :: s =>
    if c = quote ∧ (quote = '\'' ∨ quote = '"') then none
    else if 0x80 ≤ c.toNat then some ((decodeRune c s).1, true, (decodeRune c s).2)
    else if c ≠ '\\' then some (c.toNat, false, s)
    else
      match s with
      | [] => none
      | c :: s =>
        if c = 'a' then some (7, false, s)
        else if c = 'b' then some (8, false, s)
        else if c = 'f' then some (12, false, s)
        else if c = 'n' then some (10, false, s)
        else if c = 'r' then some (13, false, s)
        else if c = 't' then some (9, false, s)
        else if c = 'v' then some (11, false, s)
        else if c = 'x' then
          match readHex 2 s 0 with
          | some (v, s) => some (v, false, s)
          | none => none
        else if c = 'u' ∨ c = 'U' then
          match readHex (if c = 'u' then 4 else 8) s 0 with
          | some (v, s) =>
            if v < 0xD800 ∨ (0xE000 ≤ v ∧ v ≤ 0x10FFFF) then some (v, true, s) else none
          | none => none
        else if '0' ≤ c ∧ c ≤ '7' then
          match readOctal 2 s (c.toNat - '0'.toNat) with
          | some (v, s) => if v > 255 then none else some (v, false, s)
          | none => none
        else if c = '\\' then some ('\\'.toNat, false, s)
        else if c = '\'' ∨ c = '"' then (if c ≠ quote then none else some (c.toNat, false, s))
        else none

/-- Decoding loop of `strconv.Unquote` for a double-quoted input, entered after the
opening quote: decodes up to the closing quote, which must end the input.  A
value below 0x80 or not multibyte is appended as one byte, a multibyte rune as
its UTF-8 bytes. -/
def unquoteLoop : Nat → List Char → List Char → Option (List Char)
  | 0, _, _ => none
  | _ + 1, [], _ => none
  | fuel + 1, c :: s, buf =>
    if c = '"' then (if s = [] then some buf else none)
    else
      match unquoteChar (c :: s) '"' with
      | none => none
      | some (r, multibyte, rem) =>
        if c = '\n' then none
        else if r < 0x80 ∨ multibyte = false then unquoteLoop fuel rem (buf ++ [Char.ofNat r])
        else unquoteLoop fuel rem (buf ++ encodeRune r)

/-- Go `strconv.Unquote(s)` for `s` opening with a double quote, the one form that
`StructTag.Lookup` passes: `none` for `ErrSyntax`.  A body without backslash and
newline that is valid UTF-8 is returned as it is; any other body goes through the
decoding loop. -/
def Unquote (s : List Char) : Option (List Char) :=
  match s with
  | '"' :: rest =>
    match rest.span (fun c => c ≠ '"') with
    | (_, []) => none
    | (body, _ :: rem) =>
      if ¬ body.contains '\\' ∧ ¬ body.contains '\n' ∧ validString body.length body then
        (if rem = [] then some body else none)
      else unquoteLoop (rest.length + 1) rest []
  | _ => none

/-- Scan of `StructTag.Lookup` over a quoted value, entered after the opening quote:
the text up to and including the closing quote, and what follows it. -/
def scanQuoted : List Char → List Char → Option (List Char × List Char)
  | [], _ => none
  | '"' :: rest, acc => some (acc ++ ['"'], rest)
  | '\\' :: [], _ => none
  | '\\' :: c :: rest, acc => scanQuoted rest (acc ++ ['\\', c])
  | c :: rest, acc => scanQuoted rest (acc ++ [c])

/-- Loop of Go `reflect.StructTag.Lookup(key)` over the conventional format
`name:"value" name:"value" ...`; every round consumes at least three characters. -/
def lookupLoop (key : List Char) : Nat → List Char → Option (List Char)
  | 0, _ => none
  | fuel + 1, tag =>
    let tag := tag.dropWhile (fun c => c = ' ')
    let isName := fun (c : Char) => decide (c > ' ' ∧ c ≠ ':' ∧ c ≠ '"' ∧ c ≠ Char.ofNat 0x7f)
    let name := tag.takeWhile isName
    match name, tag.dropWhile isName with
    | [], _ => none
    | _ :: _, ':' :: '"' :: tag =>
      match scanQuoted tag [] with
      | none => none
      | some (body, tag) =>
        if key = name then Unquote ('"' :: body) else lookupLoop key fuel tag
    | _ :: _, _ => none

/-- Go `reflect.StructTag.Lookup`. -/
def StructTag.Lookup (tag key : String) : Option String :=
  (lookupLoop key.data (tag.length + 1) tag.data).map String.mk

/-- Go `reflect.StructTag.Get`: the value for `key`, the empty string when the tag
has no such key or is not in the conventional format. -/
def StructTag.Get (tag key : String) : String :=
  (StructTag.Lookup tag key).getD ""

/-! ## The Type tree and its projection -/

/-- Go: `type Type struct { Kind; TemplateName; TemplateDefaultValue; Fields }`. -/
inductive TypeTree where
  | mk (Kind : String) (TemplateName : String) (TemplateDefaultValue : Value)
      (Fields : List TypeTree)

/-- Field `Kind` of a `Type`. -/
def TypeTree.Kind : TypeTree → String
  | .mk kind _ _ _ => kind

/-- Field `TemplateName` of a `Type`. -/
def TypeTree.TemplateName : TypeTree → String
  | .mk _ name _ _ => name

/-- Field `TemplateDefaultValue` of a `Type`. -/
def TypeTree.TemplateDefaultValue : TypeTree → Value
  | .mk _ _ dflt _ => dflt

/-- Field `Fields` of a `Type`. -/
def TypeTree.Fields : TypeTree → List TypeTree
  | .mk _ _ _ fields => fields

mutual
/-- Go: `func (t *Type) ToMap() interface{}`. -/
def TypeTree.ToMap : TypeTree → Value
  | .mk _ _ dflt [] => dflt
  | .mk _ _ _ (k :: ks) => .object (TypeTree.ToMap.loop (k :: ks) [])
/-- Loop `for _, k := range t.Fields { m[k.TemplateName] = k.ToMap() }` of `ToMap`,
from the map `m` built so far. -/
def TypeTree.ToMap.loop : List TypeTree → Document → Document
  | [], m => m
  | k :: ks, m => TypeTree.ToMap.loop ks (Document.set m k.TemplateName k.ToMap)
end

/-! ## The `go/ast` fragment read by the resolver -/

mutual
/-- Go `ast.Expr` in type position: `*ast.StructType` (with its `Fields.List`),
`*ast.StarExpr`, `*ast.Ident`, and the shapes that fall to the `default` case of
the resolver; `other` is any further node kind, named by its `go/ast` type. -/
inductive Expr where
  | structType (Fields : List Field)
  | starExpr (X : Expr)
  | ident (Name : String)
  | selectorExpr (X : Expr) (Sel : String)
  | arrayType (Elt : Expr)
  | mapType (Key : Expr) (Val : Expr)
  | funcType
  | other (node : String)
/-- Go `ast.Field`: the declared names, the type, and the tag literal `Tag.Value`
with its delimiters (`none` when `Tag` is nil: the field has no tag). -/
inductive Field where
  | mk (Names : List String) (Typ : Expr) (Tag : Option String)
end

/-- Go `ast.Object.Decl` of a resolved identifier: an `*ast.TypeSpec` with its
`Type`, or a declaration of another kind (a value, a function, a type parameter). -/
inductive ObjDecl where
  | typeSpec (Typ : Expr)
  | otherDecl

/-- Identifier resolution of `go/parser` for one file: the object each declared
name is bound to.  An identifier that is not bound has `Obj == nil`. -/
abbrev Scope := List (String × ObjDecl)

/-- Go `ident.Obj`, with `none` for nil. -/
def Scope.obj? : Scope → String → Option ObjDecl
  | [], _ => none
  | (n, d) :: rest, name => if n = name then some d else Scope.obj? rest name

/-- Run-time panics of the Go code. -/
inductive Panic where
  | nilDereference
  | typeAssertion
  | sliceBounds
  deriving DecidableEq

/-- Result of running Go code that may panic; `outOfFuel` is a run cut short by
the recursion bound of the model. -/
inductive Outcome (α : Type) where
  | ok (a : α)
  | panic (p : Panic)
  | outOfFuel
  deriving DecidableEq

mutual
/-- Structural equality test on Type trees. -/
def TypeTree.beq : TypeTree → TypeTree → Bool
  | .mk k n d fs, .mk k' n' d' fs' =>
    decide (k = k') && decide (n = n') && decide (d = d') && TypeTree.beqList fs fs'
/-- Structural equality test on lists of Type trees. -/
def TypeTree.beqList : List TypeTree → List TypeTree → Bool
  | [], [] => true
  | x :: xs, y :: ys => TypeTree.beq x y && TypeTree.beqList xs ys
  | _, _ => false
end

mutual
theorem TypeTree.tree_beq_iff : ∀ (a b : TypeTree), TypeTree.beq a b = true ↔ a = b
  | .mk k n d fs, .mk k' n' d' fs' => by
    simp [TypeTree.beq, TypeTree.tree_beqList_iff fs fs', and_assoc]
theorem TypeTree.tree_beqList_iff : ∀ (a b : List TypeTree), TypeTree.beqList a b = true ↔ a = b
  | [], b => by cases b <;> simp [TypeTree.beqList]
  | x :: xs, b => by
    cases b with
    | nil => simp [TypeTree.beqList]
    | cons y ys => simp [TypeTree.beqList, TypeTree.tree_beq_iff x y, TypeTree.tree_beqList_iff xs ys]
end

instance : DecidableEq TypeTree := fun a b => decidable_of_iff _ (TypeTree.tree_beq_iff a b)

/-! ## The resolver -/

/-- Go: `f.Tag.Value[1 : len(f.Tag.Value)-1]`, for a literal of length at least 2. -/
def tagWithoutTickets (lit : String) : String :=
  String.mk ((lit.data.drop 1).take (lit.length - 2))

/-- Loop `for _, f := range structType.Fields.List` of `parseStructType`, from the
`t.Fields` built so far; `recur` is the recursive call of `parseStructType`. -/
def parseStructType.loop (scope : Scope) (recur : String → List Field → Outcome TypeTree) :
    List Field → List TypeTree → Outcome (List TypeTree)
  | [], fields => .ok fields
  | .mk _ typ tag :: rest, fields =>
    match tag with
    | none => .panic .nilDereference
    | some lit =>
      if lit.length < 2 then .panic .sliceBounds
      else
        let templateName := StructTag.Get (tagWithoutTickets lit) "mapstructure"
        match typ with
        | .structType x =>
          match recur templateName x with
          | .ok child => parseStructType.loop scope recur rest (fields ++ [child])
          | .panic p => .panic p
          | .outOfFuel => .outOfFuel
        | .starExpr x =>
          match x with
          | .ident name =>
            match Scope.obj? scope name with
            | none => .panic .nilDereference
            | some (.typeSpec (.structType resolvedPrt)) =>
              match recur templateName resolvedPrt with
              | .ok child => parseStructType.loop scope recur rest (fields ++ [child])
              | .panic p => .panic p
              | .outOfFuel => .outOfFuel
            | some _ => .panic .typeAssertion
          | _ => .panic .typeAssertion
        | .ident name =>
          parseStructType.loop scope recur rest (fields ++ [.mk name templateName .nil []])
        | _ =>
          parseStructType.loop scope recur rest (fields ++ [.mk "unknown" templateName .nil []])

/-- Go: `func parseStructType(templateName string, structType *ast.StructType) Type`,
on the field list of the struct.  `scope` gives `Obj` for the identifiers of the
file; each call spends one unit of `fuel`, since a struct that reaches itself
through a pointer makes the Go recursion endless. -/
def parseStructType (scope : Scope) : Nat → String → List Field → Outcome TypeTree
  | 0, _, _ => .outOfFuel
  | fuel + 1, templateName, structType =>
    match parseStructType.loop scope (parseStructType scope fuel) structType [] with
    | .ok fields => .ok (.mk "struct" templateName .nil fields)
    | .panic p => .panic p
    | .outOfFuel => .outOfFuel

/-- Steps 3 to 5 of the action in `main`: the root type is resolved with the empty
name, projected and asserted to be a map, and merged with the existing template
(`none` when `readExistingJsonTemplate` fails, which `main` replaces by an empty map). -/
def generateTemplate (scope : Scope) (fuel : Nat) (rootTypeSpec : List Field)
    (existing : Option Document) : Outcome Document :=
  match parseStructType scope fuel "" rootTypeSpec with
  | .ok rootType =>
    match rootType.ToMap with
    | .object rootTypeMap => .ok (mergeMapValues rootTypeMap (existing.getD []))
    | _ => .panic .typeAssertion
  | .panic p => .panic p
  | .outOfFuel => .outOfFuel

/-! ## Key-paths and key shapes of documents -/

/-- Value found by following a key-path through nested maps; `[]` is the value itself. -/
def Value.at? : Value → List String → Option Value
  | v, [] => some v
  | .object m, k :: p =>
    match Document.get? m k with
    | some v => Value.at? v p
    | none => none
  | _, _ :: _ => none

/-- Value a document holds at a key-path, `none` when the path is not in the document. -/
def Document.at? (m : Document) (p : List String) : Option Value :=
  Value.at? (.object m) p

/-- Key shape: a leaf, or a nested document with the shape under each of its keys. -/
inductive Shape where
  | leaf
  | branch (kids : List (String × Shape))

mutual
/-- Key shape of a value: maps are branches, every other value is a leaf. -/
def Value.shape : Value → Shape
  | .object m => .branch (Document.shape m)
  | _ => .leaf
/-- Key shape of a document: its keys, each with the shape of its value. -/
def Document.shape : List (String × Value) → List (String × Shape)
  | [] => []
  | (k, v) :: rest => (k, Value.shape v) :: Document.shape rest
end

mutual
/-- No key of `a` holds a leaf where `b` holds a nested document, at this level and
at every level that both documents share. -/
def noObjectOnLeaf : Document → Document → Bool
  | [], _ => true
  | (k, ak) :: rest, b => noObjectOnLeafAt ak (Document.index b k) && noObjectOnLeaf rest b
/-- Check of `noObjectOnLeaf` for the two values at one key. -/
def noObjectOnLeafAt : Value → Value → Bool
  | .object amap, .object bmap => noObjectOnLeaf amap bmap
  | .object _, _ => true
  | _, .object _ => false
  | _, _ => true
end

/-! ## Nodes of a Type tree, names of fields -/

mutual
/-- All nodes of a Type tree: the node itself, then the nodes below it. -/
def TypeTree.nodes : TypeTree → List TypeTree
  | .mk kind name dflt fields => .mk kind name dflt fields :: TypeTree.nodesList fields
/-- All nodes of a list of Type trees. -/
def TypeTree.nodesList : List TypeTree → List TypeTree
  | [] => []
  | t :: ts => TypeTree.nodes t ++ TypeTree.nodesList ts
end

/-- The name `parseStructType` reads from the tag of a field: the value of the key
`mapstructure` in the tag literal without its delimiters. -/
def Field.templateName : Field → String
  | .mk _ _ (some lit) => StructTag.Get (tagWithoutTickets lit) "mapstructure"
  | .mk _ _ none => ""

/-! ## The scenario of the specification

`type Config struct { Name string; Server *ServerConfig }` and
`type ServerConfig struct { Port int }`, the fields tagged `mapstructure:"name"`,
`mapstructure:"server"`, `mapstructure:"port"`. -/

/-- Fields of `ServerConfig`. -/
def serverConfigFields : List Field :=
  [.mk ["Port"] (.ident "int") (some "`mapstructure:\"port\"`")]

/-- Fields of `Config`. -/
def configFields : List Field :=
  [.mk ["Name"] (.ident "string") (some "`mapstructure:\"name\"`"),
   .mk ["Server"] (.starExpr (.ident "ServerConfig")) (some "`mapstructure:\"server\"`")]

/-- Objects of the file: the two declared types (`string` and `int` are not
declared in the file, so they are unresolved). -/
def configScope : Scope :=
  [("Config", .typeSpec (.structType configFields)),
   ("ServerConfig", .typeSpec (.structType serverConfigFields))]

/-- Existing template `{"name": "prod", "server": {"port": 8080}, "obsolete": true}`. -/
def existingTemplate : Document :=
  [("name", .string "prod"), ("server", .object [("port", .number 8080)]),
   ("obsolete", .bool true)]

/-! ## Declarations of a file, the root type, the action of `main` -/

/-- Go: `type TemplateOptions struct { RootTypeName string; ToJson bool }`, the type of
the package variable `opts`. -/
structure TemplateOptions where
  RootTypeName : String
  ToJson : Bool

/-- Go `ast.Spec` inside a general declaration: an import, a `var` or `const`
specification with its names, or a `*ast.TypeSpec` with `Name.Name` and `Type`. -/
inductive Spec where
  | importSpec
  | valueSpec (Names : List String)
  | typeSpec (Name : String) (Typ : Expr)

/-- Go `ast.Decl`: `*ast.BadDecl`, `*ast.FuncDecl` with `Name.Name` and whether `Recv`
is set (the declaration is a method), or `*ast.GenDecl` with its `Specs`. -/
inductive Decl where
  | badDecl
  | funcDecl (Name : String) (Recv : Bool)
  | genDecl (Specs : List Spec)

/-- Loop `for _, s := range tyd.Specs` of `findRootTypeSpec`: `none` when the loop
ends without a type of the requested name, otherwise the struct returned, or the
panic of the assertion `tyspec.Type.(*ast.StructType)`. -/
def findRootTypeSpec.specs (rootTypeName : String) : List Spec → Option (Outcome (List Field))
  | [] => none
  | .typeSpec name typ :: rest =>
    if name = rootTypeName then
      match typ with
      | .structType fields => some (.ok fields)
      | _ => some (.panic .typeAssertion)
    else findRootTypeSpec.specs rootTypeName rest
  | _ :: rest => findRootTypeSpec.specs rootTypeName rest

/-- Go: `func findRootTypeSpec(rootTypeName string, decls []ast.Decl)
(*ast.StructType, error)`; the pair holds `none` for a nil struct and for a nil
error.  `opts` is the package variable that the error message reads. -/
def findRootTypeSpec (opts : TemplateOptions) (rootTypeName : String) :
    List Decl → Outcome (Option (List Field) × Option String)
  | [] => .ok (none, some ("Couldn't find roottype '" ++ opts.RootTypeName ++ "'."))
  | .genDecl specs :: rest =>
    match findRootTypeSpec.specs rootTypeName specs with
    | some (.ok fields) => .ok (some fields, none)
    | some (.panic p) => .panic p
    | some .outOfFuel => .outOfFuel
    | none => findRootTypeSpec opts rootTypeName rest
  | _ :: rest => findRootTypeSpec opts rootTypeName rest

/-- Some declaration of the list is a type specification of the given name. -/
def declaresType (name : String) (decls : List Decl) : Bool :=
  decls.any fun d =>
    match d with
    | .genDecl specs =>
      specs.any fun s =>
        match s with
        | .typeSpec n _ => decide (n = name)
        | _ => false
    | _ => false

/-- Objects that `go/parser` binds in the package scope of the file, in declaration
order: the types, variables and constants of the general declarations and the
functions that have no receiver and are not called `init` (methods and `init`
are not declared).  The first declaration of a name is the one identifiers
resolve to; the blank name is never bound. -/
def fileScope : List Decl → Scope
  | [] => []
  | .genDecl specs :: rest =>
    (specs.flatMap fun s =>
      match s with
      | .typeSpec name typ => if name = "_" then [] else [(name, ObjDecl.typeSpec typ)]
      | .valueSpec names => (names.filter fun n => n ≠ "_").map fun n => (n, ObjDecl.otherDecl)
      | .importSpec => []) ++ fileScope rest
  | .funcDecl name recv :: rest =>
    (if recv = true ∨ name = "init" ∨ name = "_" then [] else [(name, ObjDecl.otherDecl)])
      ++ fileScope rest
  | .badDecl :: rest => fileScope rest

/-- What the outside world answers during one run of the action in `main`: the
result of `parser.ParseFile` (an error or the declarations of the file), of
`readExistingJsonTemplate` (`none` for an error), of `json.MarshalIndent` and of
`ioutil.WriteFile` (`none` for a nil error). -/
structure Run where
  parsedFile : Except String (List Decl)
  existing : Option Document
  marshalErr : Option String
  writeErr : Option String

/-- The function assigned to `app.Action` in `main`, as the error it returns (`none`
for nil) or the panic it ends in.  Steps 1 and 2 return their error; steps 3 to 5
are `generateTemplate`; the error of `json.MarshalIndent` is returned; the
result of `ioutil.WriteFile` is not read and the action returns nil. -/
def mainAction (opts : TemplateOptions) (fuel : Nat) (run : Run) : Outcome (Option String) :=
  match run.parsedFile with
  | .error err => .ok (some err)
  | .ok decls =>
    match findRootTypeSpec opts opts.RootTypeName decls with
    | .ok (_, some err) => .ok (some err)
    | .ok (none, none) => .panic .nilDereference
    | .ok (some rootTypeSpec, none) =>
      match generateTemplate (fileScope decls) fuel rootTypeSpec run.existing with
      | .ok _ =>
        match run.marshalErr with
        | some err => .ok (some err)
        | none => .ok none
      | .panic p => .panic p
      | .outOfFuel => .outOfFuel
    | .panic p => .panic p
    | .outOfFuel => .outOfFuel

/-- The two top-level declarations of the scenario file. -/
def configDecls : List Decl :=
  [.genDecl [.typeSpec "Config" (.structType configFields)],
   .genDecl [.typeSpec "ServerConfig" (.structType serverConfigFields)]]

/-! ## Resolvable structs: tags, pointer targets, inline depth -/

mutual
/-- Inline nesting depth of a field list: how many `struct { ... }` types are nested
inside one another in the types of the fields (pointers are not followed). -/
def fieldsDepth : List Field → Nat
  | [] => 0
  | f :: fs => max (fieldDepth f) (fieldsDepth fs)
/-- Inline nesting depth of the type of one field. -/
def fieldDepth : Field → Nat
  | .mk _ typ _ => typeDepth typ
/-- Inline nesting depth of a type expression. -/
def typeDepth : Expr → Nat
  | .structType fs => fieldsDepth fs + 1
  | _ => 0
end

/-- Largest inline nesting depth among the types declared in the file. -/
def scopeDepth : Scope → Nat
  | [] => 0
  | (_, .typeSpec typ) :: rest => max (typeDepth typ) (scopeDepth rest)
  | (_, .otherDecl) :: rest => scopeDepth rest

/-- The field has a tag literal that holds its two delimiters. -/
def hasTag : Option String → Bool
  | some lit => decide (2 ≤ lit.length)
  | none => false

mutual
/-- Every pointer field of the list, at any inline depth, points to an identifier
that the file binds to a struct type of rank below `b`; with `tags`, every field
also has a tag literal. -/
def resolvableFields (scope : Scope) (rank : String → Nat) (tags : Bool) (b : Nat) :
    List Field → Bool
  | [] => true
  | f :: fs => resolvableField scope rank tags b f && resolvableFields scope rank tags b fs
/-- Check of `resolvableFields` for one field. -/
def resolvableField (scope : Scope) (rank : String → Nat) (tags : Bool) (b : Nat) :
    Field → Bool
  | .mk _ typ tag => (!tags || hasTag tag) && resolvableType scope rank tags b typ
/-- Check of `resolvableFields` for the type of a field. -/
def resolvableType (scope : Scope) (rank : String → Nat) (tags : Bool) (b : Nat) :
    Expr → Bool
  | .structType fs => resolvableFields scope rank tags b fs
  | .starExpr x =>
    match x with
    | .ident name =>
      match Scope.obj? scope name with
      | some (.typeSpec (.structType _)) => decide (rank name < b)
      | _ => false
    | _ => false
  | _ => true
end

/-- The reference graph of the file is acyclic, with `rank` as the evidence: every
struct type bound in the file points only to declared struct types of smaller
rank; with `tags`, every field of these structs also has a tag literal. -/
def resolvableScope (scope : Scope) (rank : String → Nat) (tags : Bool) : Bool :=
  scope.all fun e =>
    match e.2 with
    | .typeSpec (.structType fields) => resolvableFields scope rank tags (rank e.1) fields
    | _ => true

mutual
/-- No field of the list, at any inline depth, has the identifier `struct` as its type.
The parser never yields such an identifier: `struct` is a keyword of Go. -/
def plainIdents : List Field → Bool
  | [] => true
  | f :: fs => plainIdentField f && plainIdents fs
/-- Check of `plainIdents` for one field. -/
def plainIdentField : Field → Bool
  | .mk _ typ _ => plainIdentType typ
/-- Check of `plainIdents` for the type of a field. -/
def plainIdentType : Expr → Bool
  | .structType fs => plainIdents fs
  | .ident name => decide (name ≠ "struct")
  | _ => true
end

/-- No struct type bound in the file has a field whose type is the identifier
`struct`. -/
def plainIdentScope (scope : Scope) : Bool :=
  scope.all fun e =>
    match e.2 with
    | .typeSpec (.structType fields) => plainIdents fields
    | _ => true

/-- The child that the resolver is specified to build for one field: named by the
`mapstructure` value of the tag; a leaf whose Kind is the name of the type for a
plain identifier; the struct node resolved by `recur` for an inline struct and
for a pointer to an identifier bound to a struct type; a leaf of Kind `unknown` for
every other shape that is not a pointer. -/
def childMatches (scope : Scope) (recur : String → List Field → Outcome TypeTree)
    (f : Field) (c : TypeTree) : Prop :=
  match f with
  | .mk _ (.ident x) _ => c = .mk x (Field.templateName f) .nil []
  | .mk _ (.structType fields) _ => recur (Field.templateName f) fields = .ok c
  | .mk _ (.starExpr (.ident name)) _ =>
    ∃ fields, Scope.obj? scope name = some (.typeSpec (.structType fields))
      ∧ recur (Field.templateName f) fields = .ok c
  | .mk _ (.starExpr _) _ => False
  | .mk _ _ _ => c = .mk "unknown" (Field.templateName f) .nil []

/-- Rank of the scenario: `Config` points to `ServerConfig`. -/
def configRank (name : String) : Nat :=
  if name = "Config" then 1 else 0

/-! ## Theorems: the merge -/

theorem mergeMapValues_cons (k : String) (ak : Value) (rest b : Document) :
    mergeMapValues ((k, ak) :: rest) b
      = (k, mergeValue ak (Document.index b k)) :: mergeMapValues rest b := by
  simp [mergeMapValues]

/-- Reading the merged map at a key: the loop body applied to `a[k]` and `b[k]`. -/
theorem get?_mergeMapValues (a b : Document) (k : String) :
    Document.get? (mergeMapValues a b) k
      = (Document.get? a k).map (fun ak => mergeValue ak (Document.index b k)) := by
  induction a with
  | nil => simp [mergeMapValues, Document.get?]
  | cons e rest ih =>
    obtain ⟨k', v⟩ := e
    rw [mergeMapValues_cons]
    by_cases h : k' = k
    · subst h; simp [Document.get?]
    · simp [Document.get?, h, ih]

theorem keys_mergeMapValues (a b : Document) :
    Document.keys (mergeMapValues a b) = Document.keys a := by
  induction a with
  | nil => simp [mergeMapValues, Document.keys]
  | cons e rest ih =>
    obtain ⟨k', v⟩ := e
    rw [mergeMapValues_cons]
    simp only [Document.keys, List.map_cons] at ih ⊢
    rw [ih]

theorem mergeValue_leaf (ak bk : Value) (h : ak.isObject = false) :
    mergeValue ak bk = if bk = Value.nil then ak else bk := by
  cases ak <;> cases bk <;> simp [mergeValue, Value.isObject] at h ⊢

theorem mergeValue_object_object (am bm : Document) :
    mergeValue (.object am) (.object bm) = .object (mergeMapValues am bm) := by
  simp [mergeValue]

theorem mergeValue_object_other (am : Document) (bk : Value) (h : bk.isObject = false) :
    mergeValue (.object am) bk = .object am := by
  cases bk <;> simp [mergeValue, Value.isObject] at h ⊢

theorem mergeValue_nil (ak : Value) : mergeValue ak Value.nil = ak := by
  cases ak <;> simp [mergeValue]

theorem at?_cons_cons (v : Value) (k k2 : String) (p : List String) (w : Value)
    (h : Value.at? v (k :: k2 :: p) = some w) :
    ∃ m m', v = .object m ∧ Document.get? m k = some (.object m')
      ∧ Value.at? (.object m') (k2 :: p) = some w := by
  cases v <;> simp [Value.at?] at h
  rename_i m
  cases hk : Document.get? m k with
  | none => simp [hk] at h
  | some v' =>
    simp [hk] at h
    cases v' <;> simp [Value.at?] at h
    rename_i m'
    exact ⟨m, m', rfl, hk, by simpa [Value.at?] using h⟩

theorem at?_mergeMapValues_leaf (p : List String) :
    ∀ (fresh existing : Document) (vf ve : Value), p ≠ [] →
      Document.at? fresh p = some vf → vf.isObject = false →
      Document.at? existing p = some ve →
      Document.at? (mergeMapValues fresh existing) p
        = some (if ve = Value.nil then vf else ve) := by
  induction p with
  | nil => intro _ _ _ _ h; exact absurd rfl h
  | cons k p ih =>
    intro fresh existing vf ve _ hf hleaf he
    cases p with
    | nil =>
      simp only [Document.at?, Value.at?] at hf he ⊢
      rw [get?_mergeMapValues]
      cases hfk : Document.get? fresh k with
      | none => simp [hfk] at hf
      | some a =>
        cases hek : Document.get? existing k with
        | none => simp [hek] at he
        | some b =>
          simp only [hfk, hek, Option.some.injEq] at hf he
          subst hf; subst he
          simp [Document.index, hek, mergeValue_leaf _ _ hleaf]
    | cons k2 p =>
      obtain ⟨m, fm, hm, hfk, hf'⟩ := at?_cons_cons _ _ _ _ _ hf
      obtain ⟨m2, em, hm2, hek, he'⟩ := at?_cons_cons _ _ _ _ _ he
      cases hm; cases hm2
      have := ih fm em vf ve (by simp) hf' hleaf he'
      simp only [Document.at?, Value.at?] at this ⊢
      rw [get?_mergeMapValues]
      simp only [hfk, Document.index, hek, Option.map_some', Option.getD_some,
        mergeValue_object_object]
      exact this

/-- C1, as stated, fails: at the key `name` both documents hold a leaf, the existing
one holds JSON null there, and the merged document keeps the fresh string instead
of the null of the existing document. -/
theorem c1_null_leaf_not_taken :
    Document.at? [("name", Value.string "dev")] ["name"] = some (Value.string "dev")
    ∧ Document.at? [("name", Value.nil)] ["name"] = some Value.nil
    ∧ Document.at? (mergeMapValues [("name", Value.string "dev")] [("name", Value.nil)]) ["name"]
        ≠ Document.at? [("name", Value.nil)] ["name"] := by
  decide

/-- C1, amended: for every key-path `p` that is a leaf (not a nested document) in
both `fresh` and `existing`, the merged document holds at `p` the value of
`existing` when that value is not null, and the value of `fresh` when it is. -/
theorem c1_leaf_value_preserved (fresh existing : Document) (p : List String)
    (vf ve : Value) (hp : p ≠ [])
    (hf : Document.at? fresh p = some vf) (hfleaf : vf.isObject = false)
    (he : Document.at? existing p = some ve) (heleaf : ve.isObject = false) :
    (ve ≠ Value.nil → Document.at? (mergeMapValues fresh existing) p = some ve)
    ∧ (ve = Value.nil → Document.at? (mergeMapValues fresh existing) p = some vf) := by
  have h := at?_mergeMapValues_leaf p fresh existing vf ve hp hf hfleaf he
  have _ := heleaf
  constructor
  · intro hne; simpa [hne] using h
  · intro heq; simpa [heq] using h

/-- Instance of C1 (amended): the port 8080 of the existing template replaces the null of the fresh document at `server.port`. -/
theorem c1_leaf_value_preserved_witness :
    (Value.number 8080 ≠ Value.nil →
      Document.at?
        (mergeMapValues [("server", Value.object [("port", Value.nil)])]
          [("server", Value.object [("port", Value.number 8080)])]) ["server", "port"]
        = some (Value.number 8080))
    ∧ (Value.number 8080 = Value.nil →
      Document.at?
        (mergeMapValues [("server", Value.object [("port", Value.nil)])]
          [("server", Value.object [("port", Value.number 8080)])]) ["server", "port"]
        = some Value.nil) :=
  c1_leaf_value_preserved [("server", Value.object [("port", Value.nil)])]
    [("server", Value.object [("port", Value.number 8080)])] ["server", "port"]
    Value.nil (Value.number 8080) (by decide) (by decide) (by decide) (by decide) (by decide)

mutual
theorem shape_mergeMapValues_iff : ∀ (a b : Document),
    Document.shape (mergeMapValues a b) = Document.shape a ↔ noObjectOnLeaf a b = true
  | [], b => by simp [mergeMapValues, Document.shape, noObjectOnLeaf]
  | (k, ak) :: rest, b => by
    rw [mergeMapValues_cons]
    simp only [Document.shape, noObjectOnLeaf, List.cons.injEq, Prod.mk.injEq, true_and,
      Bool.and_eq_true]
    rw [shape_mergeValue_iff ak (Document.index b k), shape_mergeMapValues_iff rest b]
theorem shape_mergeValue_iff : ∀ (ak bk : Value),
    Value.shape (mergeValue ak bk) = Value.shape ak ↔ noObjectOnLeafAt ak bk = true
  | .object am, .object bm => by
    simp only [mergeValue, Value.shape, noObjectOnLeafAt, Shape.branch.injEq]
    exact shape_mergeMapValues_iff am bm
  | .object am, .nil => by simp [mergeValue, Value.shape, noObjectOnLeafAt]
  | .object am, .bool _ => by simp [mergeValue, Value.shape, noObjectOnLeafAt]
  | .object am, .number _ => by simp [mergeValue, Value.shape, noObjectOnLeafAt]
  | .object am, .string _ => by simp [mergeValue, Value.shape, noObjectOnLeafAt]
  | .object am, .array _ => by simp [mergeValue, Value.shape, noObjectOnLeafAt]
  | .nil, bk => by cases bk <;> simp [mergeValue, Value.shape, noObjectOnLeafAt]
  | .bool _, bk => by cases bk <;> simp [mergeValue, Value.shape, noObjectOnLeafAt]
  | .number _, bk => by cases bk <;> simp [mergeValue, Value.shape, noObjectOnLeafAt]
  | .string _, bk => by cases bk <;> simp [mergeValue, Value.shape, noObjectOnLeafAt]
  | .array _, bk => by cases bk <;> simp [mergeValue, Value.shape, noObjectOnLeafAt]
end

theorem get?_shape_congr : ∀ (m m' : Document) (k : String),
    Document.shape m = Document.shape m' →
    (Document.get? m k).map Value.shape = (Document.get? m' k).map Value.shape
  | [], [], _, _ => rfl
  | [], _ :: _, _, h => by obtain ⟨_, _⟩ := ‹String × Value›; simp [Document.shape] at h
  | (_, _) :: _, [], _, h => by simp [Document.shape] at h
  | (k1, v1) :: rest, (k2, v2) :: rest', k, h => by
    simp only [Document.shape, List.cons.injEq, Prod.mk.injEq] at h
    obtain ⟨⟨hk, hv⟩, hrest⟩ := h
    subst hk
    by_cases hkk : k1 = k
    · simp [Document.get?, hkk, hv]
    · simp [Document.get?, hkk, get?_shape_congr rest rest' k hrest]

theorem at?_shape_congr (p : List String) : ∀ (v w : Value),
    Value.shape v = Value.shape w →
    (Value.at? v p).map Value.shape = (Value.at? w p).map Value.shape := by
  induction p with
  | nil => intro v w h; simp [Value.at?, h]
  | cons k p ih =>
    intro v w h
    cases v <;> cases w <;> simp [Value.shape] at h <;> try simp [Value.at?]
    rename_i m m'
    have hg := get?_shape_congr m m' k h
    cases h1 : Document.get? m k with
    | none =>
      cases h2 : Document.get? m' k with
      | none => rfl
      | some y => rw [h1, h2] at hg; simp at hg
    | some x =>
      cases h2 : Document.get? m' k with
      | none => rw [h1, h2] at hg; simp at hg
      | some y =>
        rw [h1, h2] at hg
        simp only [Option.map_some', Option.some.injEq] at hg
        exact ih x y hg

/-- C2, as stated, fails: where the fresh document holds a leaf and the existing one
a nested document, the nested document is taken over, so the key-path `port.http`
of the existing document, absent from the fresh one, is in the result, and the
key shape of the result is not that of the fresh document. -/
theorem c2_nested_document_on_leaf :
    Document.at? [("port", Value.nil)] ["port", "http"] = none
    ∧ Document.at? [("port", Value.object [("http", Value.number 80)])] ["port", "http"]
        = some (Value.number 80)
    ∧ Document.at?
        (mergeMapValues [("port", Value.nil)]
          [("port", Value.object [("http", Value.number 80)])]) ["port", "http"]
        = some (Value.number 80)
    ∧ Document.shape
        (mergeMapValues [("port", Value.nil)]
          [("port", Value.object [("http", Value.number 80)])])
        ≠ Document.shape [("port", Value.nil)] := by
  refine ⟨by decide, by decide, by decide, ?_⟩
  rw [Ne, shape_mergeMapValues_iff]
  decide

/-- C2, amended: the merged document has the keys of `fresh`; it has exactly the key
shape of `fresh` if and only if `existing` holds no nested document at a key
where `fresh` holds a leaf, at every level the two documents share; and in that
case every key-path is in the result exactly when it is in `fresh`, holding a
nested document or a leaf as it does in `fresh`. -/
theorem c2_shape_of_fresh (fresh existing : Document) :
    Document.keys (mergeMapValues fresh existing) = Document.keys fresh
    ∧ (Document.shape (mergeMapValues fresh existing) = Document.shape fresh
        ↔ noObjectOnLeaf fresh existing = true)
    ∧ (noObjectOnLeaf fresh existing = true → ∀ p : List String,
        (Document.at? (mergeMapValues fresh existing) p).map Value.shape
          = (Document.at? fresh p).map Value.shape) := by
  refine ⟨keys_mergeMapValues fresh existing, shape_mergeMapValues_iff fresh existing, ?_⟩
  intro h p
  apply at?_shape_congr
  simp only [Value.shape, Shape.branch.injEq]
  exact (shape_mergeMapValues_iff fresh existing).mpr h

/-- Instance of C2 (amended): the key `obsolete` of the existing template, absent from the fresh document, is absent from the result. -/
theorem c2_shape_of_fresh_witness :
    (Document.at?
        (mergeMapValues [("name", Value.nil), ("server", Value.object [("port", Value.nil)])]
          [("name", Value.string "prod"), ("obsolete", Value.bool true)])
        ["obsolete"]).map Value.shape
      = (Document.at? [("name", Value.nil), ("server", Value.object [("port", Value.nil)])]
          ["obsolete"]).map Value.shape :=
  (c2_shape_of_fresh [("name", Value.nil), ("server", Value.object [("port", Value.nil)])]
    [("name", Value.string "prod"), ("obsolete", Value.bool true)]).2.2 (by decide) ["obsolete"]

theorem index_cons_self (k : String) (v : Value) (b : Document) :
    Document.index ((k, v) :: b) k = v := by
  simp [Document.index, Document.get?]

theorem index_cons_ne (k' k : String) (v : Value) (b : Document) (h : k' ≠ k) :
    Document.index ((k', v) :: b) k = Document.index b k := by
  simp [Document.index, Document.get?, h]

/-- The merge reads `b` only at the keys of `a`. -/
theorem mergeMapValues_congr (a b b' : Document)
    (h : ∀ k ∈ Document.keys a, Document.index b k = Document.index b' k) :
    mergeMapValues a b = mergeMapValues a b' := by
  induction a with
  | nil => simp [mergeMapValues]
  | cons e rest ih =>
    obtain ⟨k, v⟩ := e
    rw [mergeMapValues_cons, mergeMapValues_cons, h k (by simp [Document.keys]),
      ih (fun k' hk' => h k' (by simp [Document.keys] at hk' ⊢; exact Or.inr hk'))]

theorem wf_cons (k : String) (v : Value) (rest : Document)
    (h : Document.wf ((k, v) :: rest) = true) :
    (∀ k' ∈ Document.keys rest, k ≠ k') ∧ Value.wf v = true ∧ Document.wf rest = true := by
  simp only [Document.wf, Bool.and_eq_true, Bool.not_eq_true', List.any_eq_false,
    decide_eq_true_eq] at h
  refine ⟨?_, h.1.2, h.2⟩
  intro k' hk' heq
  simp only [Document.keys, List.mem_map] at hk'
  obtain ⟨e, he, rfl⟩ := hk'
  exact h.1.1 e he heq.symm

theorem mergeMapValues_skip (k : String) (v : Value) (rest b : Document)
    (h : ∀ k' ∈ Document.keys rest, k ≠ k') :
    mergeMapValues rest ((k, v) :: b) = mergeMapValues rest b :=
  mergeMapValues_congr rest _ _ (fun k' hk' => index_cons_ne k k' v b (h k' hk'))

mutual
theorem mergeMapValues_self : ∀ (a : Document), Document.wf a = true → mergeMapValues a a = a
  | [], _ => by simp [mergeMapValues]
  | (k, v) :: rest, h => by
    obtain ⟨hk, hv, hrest⟩ := wf_cons k v rest h
    rw [mergeMapValues_cons, index_cons_self, mergeValue_self v hv,
      mergeMapValues_skip k v rest rest hk, mergeMapValues_self rest hrest]
theorem mergeValue_self : ∀ (v : Value), Value.wf v = true → mergeValue v v = v
  | .object am, h => by
    rw [mergeValue_object_object, mergeMapValues_self am (by simpa [Value.wf] using h)]
  | .nil, _ => by simp [mergeValue]
  | .bool _, _ => by simp [mergeValue]
  | .number _, _ => by simp [mergeValue]
  | .string _, _ => by simp [mergeValue]
  | .array _, _ => by simp [mergeValue]
end

mutual
theorem mergeMapValues_idem : ∀ (a b : Document), Document.wf a = true →
    mergeMapValues a (mergeMapValues a b) = mergeMapValues a b
  | [], _, _ => by simp [mergeMapValues]
  | (k, v) :: rest, b, h => by
    obtain ⟨hk, hv, hrest⟩ := wf_cons k v rest h
    rw [mergeMapValues_cons, mergeMapValues_cons, index_cons_self,
      mergeValue_idem v (Document.index b k) hv,
      mergeMapValues_skip k _ rest _ hk, mergeMapValues_idem rest b hrest]
theorem mergeValue_idem : ∀ (v x : Value), Value.wf v = true →
    mergeValue v (mergeValue v x) = mergeValue v x
  | .object am, .object bm, h => by
    rw [mergeValue_object_object, mergeValue_object_object,
      mergeMapValues_idem am bm (by simpa [Value.wf] using h)]
  | .object am, .nil, h => by
    simp only [mergeValue]
    exact mergeValue_self _ h
  | .object am, .bool _, h => by
    simp only [mergeValue]
    exact mergeValue_self _ h
  | .object am, .number _, h => by
    simp only [mergeValue]
    exact mergeValue_self _ h
  | .object am, .string _, h => by
    simp only [mergeValue]
    exact mergeValue_self _ h
  | .object am, .array _, h => by
    simp only [mergeValue]
    exact mergeValue_self _ h
  | .nil, x, _ => by cases x <;> simp [mergeValue]
  | .bool _, x, _ => by cases x <;> simp [mergeValue]
  | .number _, x, _ => by cases x <;> simp [mergeValue]
  | .string _, x, _ => by cases x <;> simp [mergeValue]
  | .array _, x, _ => by cases x <;> simp [mergeValue]
end

/-- C3: the merge is idempotent.  For every fresh document that is a Go map (no key
twice at any level) and every existing document, merging the result of
`mergeMapValues(fresh, existing)` into `fresh` again gives that same result. -/
theorem c3_merge_idempotent (fresh existing : Document) (hfresh : Document.wf fresh = true) :
    mergeMapValues fresh (mergeMapValues fresh existing) = mergeMapValues fresh existing :=
  mergeMapValues_idem fresh existing hfresh

/-- Instance of C3 on the scenario documents. -/
theorem c3_merge_idempotent_witness :
    mergeMapValues [("name", Value.nil), ("server", Value.object [("port", Value.nil)])]
        (mergeMapValues [("name", Value.nil), ("server", Value.object [("port", Value.nil)])]
          [("name", Value.string "prod"), ("server", Value.object [("port", Value.number 8080)]),
            ("obsolete", Value.bool true)])
      = mergeMapValues [("name", Value.nil), ("server", Value.object [("port", Value.nil)])]
          [("name", Value.string "prod"), ("server", Value.object [("port", Value.number 8080)]),
            ("obsolete", Value.bool true)] :=
  c3_merge_idempotent _ _ (by decide)

/-- C4: merging an empty existing document leaves the fresh document as it was. -/
theorem c4_merge_empty_existing (fresh : Document) : mergeMapValues fresh [] = fresh := by
  induction fresh with
  | nil => simp [mergeMapValues]
  | cons e rest ih =>
    obtain ⟨k, v⟩ := e
    rw [mergeMapValues_cons, ih]
    simp [Document.index, Document.get?, mergeValue_nil]

/-- C5, as stated, fails: `name` is a key of the existing document, bound to JSON
null, the fresh document holds a string there, and the merged document keeps the
fresh string instead of the value of the existing document. -/
theorem c5_null_does_not_overwrite :
    Document.get? [("name", Value.string "dev")] "name" = some (Value.string "dev")
    ∧ Document.get? [("name", Value.nil)] "name" = some Value.nil
    ∧ Document.get? (mergeMapValues [("name", Value.string "dev")] [("name", Value.nil)]) "name"
        = some (Value.string "dev")
    ∧ Document.get? (mergeMapValues [("name", Value.string "dev")] [("name", Value.nil)]) "name"
        ≠ Document.get? [("name", Value.nil)] "name" := by
  decide

/-- C5, amended: for every key `k` at which `fresh` holds a value that is not a
nested document and `existing` holds a value other than null, of whatever type (a
nested document included), the merged document holds the value of `existing` at
`k`; no type compatibility is checked. -/
theorem c5_existing_overwrites_scalar (fresh existing : Document) (k : String) (vf ve : Value)
    (hf : Document.get? fresh k = some vf) (hscalar : vf.isObject = false)
    (he : Document.get? existing k = some ve) (hnonnil : ve ≠ Value.nil) :
    Document.get? (mergeMapValues fresh existing) k = some ve := by
  rw [get?_mergeMapValues, hf]
  simp [Document.index, he, mergeValue_leaf _ _ hscalar, hnonnil]

/-- Instance of C5 (amended): a nested document of the existing template overwrites a fresh number. -/
theorem c5_existing_overwrites_scalar_witness :
    Document.get?
        (mergeMapValues [("port", Value.number 0)]
          [("port", Value.object [("http", Value.number 80)])]) "port"
      = some (Value.object [("http", Value.number 80)]) :=
  c5_existing_overwrites_scalar [("port", Value.number 0)]
    [("port", Value.object [("http", Value.number 80)])] "port" (Value.number 0)
    (Value.object [("http", Value.number 80)]) (by decide) (by decide) (by decide) (by decide)

/-- C6: for every key `k` at which `fresh` holds a nested document while `existing`
holds anything that is not a nested document (a scalar, null, or no entry: `b[k]`
is then the nil interface), the merged document holds at `k` the nested document
of `fresh`, unmodified. -/
theorem c6_fresh_nested_kept (fresh existing : Document) (k : String) (m : Document)
    (hf : Document.get? fresh k = some (Value.object m))
    (he : (Document.index existing k).isObject = false) :
    Document.get? (mergeMapValues fresh existing) k = some (Value.object m) := by
  rw [get?_mergeMapValues, hf]
  simp [mergeValue_object_other m _ he]

/-- Instance of C6: a string of the existing template does not replace a nested document of the fresh one. -/
theorem c6_fresh_nested_kept_witness :
    Document.get?
        (mergeMapValues [("server", Value.object [("port", Value.nil)])]
          [("server", Value.string "localhost:8080")]) "server"
      = some (Value.object [("port", Value.nil)]) :=
  c6_fresh_nested_kept [("server", Value.object [("port", Value.nil)])]
    [("server", Value.string "localhost:8080")] "server" [("port", Value.nil)]
    (by decide) (by decide)

/-! ## Theorems: the resolver and the projection -/

/-- Invariant rule for the field loop: a property of children that holds of what
the recursive call returns, of every leaf, and of the children collected so far,
holds of every child the loop returns. -/
theorem parseStructType.loop_invariant (P : TypeTree → Prop) (scope : Scope)
    (recur : String → List Field → Outcome TypeTree)
    (hrec : ∀ name st t, recur name st = .ok t → P t)
    (hleaf : ∀ kind name, P (.mk kind name .nil [])) :
    ∀ (fs : List Field) (acc res : List TypeTree), (∀ c ∈ acc, P c) →
      parseStructType.loop scope recur fs acc = .ok res → ∀ c ∈ res, P c := by
  intro fs
  induction fs with
  | nil =>
    intro acc res hacc h
    simp only [parseStructType.loop, Outcome.ok.injEq] at h
    subst h; exact hacc
  | cons f rest ih =>
    intro acc res hacc h
    obtain ⟨names, typ, tag⟩ := f
    have hstep : ∀ child, P child → ∀ c ∈ acc ++ [child], P c := by
      intro child hc c hmem
      rcases List.mem_append.mp hmem with h1 | h1
      · exact hacc c h1
      · simp only [List.mem_singleton] at h1; subst h1; exact hc
    simp only [parseStructType.loop] at h
    split at h
    · cases h
    · split at h
      · cases h
      · split at h
        · split at h
          · rename_i child hchild
            exact ih _ res (hstep child (hrec _ _ _ hchild)) h
          · cases h
          · cases h
        · split at h
          · split at h
            · cases h
            · split at h
              · rename_i child hchild
                exact ih _ res (hstep child (hrec _ _ _ hchild)) h
              · cases h
              · cases h
            · cases h
          · cases h
        · exact ih _ res (hstep _ (hleaf _ _)) h
        · exact ih _ res (hstep _ (hleaf _ _)) h

/-- Invariant rule for the resolver: a property that holds of every leaf, and of a
struct node whenever it holds of its children, holds of every tree returned. -/
theorem parseStructType_invariant (P : TypeTree → Prop) (scope : Scope)
    (hleaf : ∀ kind name, P (.mk kind name .nil []))
    (hnode : ∀ name fields, (∀ c ∈ fields, P c) → P (.mk "struct" name .nil fields)) :
    ∀ (fuel : Nat) (name : String) (st : List Field) (t : TypeTree),
      parseStructType scope fuel name st = .ok t → P t := by
  intro fuel
  induction fuel with
  | zero => intro name st t h; simp [parseStructType] at h
  | succ fuel ih =>
    intro name st t h
    simp only [parseStructType] at h
    split at h
    · rename_i fields hfields
      simp only [Outcome.ok.injEq] at h
      subst h
      apply hnode
      exact parseStructType.loop_invariant P scope _ ih hleaf st [] fields (by simp) hfields
    · cases h
    · cases h

theorem parseStructType.loop_mono (scope : Scope)
    (recur recur' : String → List Field → Outcome TypeTree)
    (hrec : ∀ name st t, recur name st = .ok t → recur' name st = .ok t) :
    ∀ (fs : List Field) (acc res : List TypeTree),
      parseStructType.loop scope recur fs acc = .ok res →
      parseStructType.loop scope recur' fs acc = .ok res := by
  intro fs
  induction fs with
  | nil => intro acc res h; simpa [parseStructType.loop] using h
  | cons f rest ih =>
    intro acc res h
    obtain ⟨names, typ, tag⟩ := f
    simp only [parseStructType.loop] at h ⊢
    split at h
    · cases h
    · split at h
      · cases h
      · rename_i hlen
        simp only [hlen, if_false]
        split at h
        · split at h
          · rename_i child hchild
            simp only [hrec _ _ _ hchild]
            exact ih _ res h
          · cases h
          · cases h
        · split at h
          · split at h
            · cases h
            · split at h
              · rename_i child hchild
                simp only [hrec _ _ _ hchild]
                exact ih _ res h
              · cases h
              · cases h
            · cases h
          · cases h
        · exact ih _ res h
        · exact ih _ res h

/-- More fuel does not change a tree that was returned. -/
theorem parseStructType_fuel_succ (scope : Scope) :
    ∀ (fuel : Nat) (name : String) (st : List Field) (t : TypeTree),
      parseStructType scope fuel name st = .ok t →
      parseStructType scope (fuel + 1) name st = .ok t := by
  intro fuel
  induction fuel with
  | zero => intro name st t h; simp [parseStructType] at h
  | succ fuel ih =>
    intro name st t h
    rw [parseStructType] at h ⊢
    split at h
    · rename_i fields hfields
      rw [parseStructType.loop_mono scope _ _ ih st [] fields hfields]
      exact h
    · cases h
    · cases h

theorem parseStructType_fuel_add (scope : Scope) (fuel : Nat) (name : String)
    (st : List Field) (t : TypeTree) (h : parseStructType scope fuel name st = .ok t)
    (k : Nat) : parseStructType scope (fuel + k) name st = .ok t := by
  induction k with
  | zero => exact h
  | succ k ih => exact parseStructType_fuel_succ scope (fuel + k) name st t ih

theorem generateTemplate_fuel_add (scope : Scope) (fuel : Nat) (root : List Field)
    (existing : Option Document) (d : Document)
    (h : generateTemplate scope fuel root existing = .ok d) (k : Nat) :
    generateTemplate scope (fuel + k) root existing = .ok d := by
  unfold generateTemplate at h ⊢
  split at h
  · rename_i rootType hroot
    rw [parseStructType_fuel_add scope fuel "" root rootType hroot k]
    exact h
  · cases h
  · cases h

theorem TypeTree.ToMap_leaf (n : TypeTree) (h : n.Fields = []) :
    n.ToMap = n.TemplateDefaultValue := by
  obtain ⟨kind, name, dflt, fields⟩ := n
  simp only [TypeTree.Fields] at h
  subst h
  simp [TypeTree.ToMap, TypeTree.TemplateDefaultValue]

theorem TypeTree.mem_nodesList (n : TypeTree) :
    ∀ (ts : List TypeTree), n ∈ TypeTree.nodesList ts → ∃ c ∈ ts, n ∈ TypeTree.nodes c
  | [], h => by simp [TypeTree.nodesList] at h
  | t :: ts, h => by
    simp only [TypeTree.nodesList, List.mem_append] at h
    rcases h with h | h
    · exact ⟨t, by simp, h⟩
    · obtain ⟨c, hc, hn⟩ := TypeTree.mem_nodesList n ts h
      exact ⟨c, by simp [hc], hn⟩

/-- No node of a tree built by `parseStructType` has a default value: the field
`TemplateDefaultValue` is never assigned. -/
theorem parseStructType_default_nil (scope : Scope) (fuel : Nat) (name : String)
    (st : List Field) (t : TypeTree) (h : parseStructType scope fuel name st = .ok t) :
    ∀ n ∈ TypeTree.nodes t, n.TemplateDefaultValue = Value.nil := by
  refine parseStructType_invariant
    (fun t => ∀ n ∈ TypeTree.nodes t, n.TemplateDefaultValue = Value.nil) scope ?_ ?_
    fuel name st t h
  · intro kind name n hn
    simp only [TypeTree.nodes, TypeTree.nodesList, List.mem_singleton] at hn
    subst hn; rfl
  · intro name fields hfields n hn
    simp only [TypeTree.nodes, List.mem_cons] at hn
    rcases hn with hn | hn
    · subst hn; rfl
    · obtain ⟨c, hc, hnc⟩ := TypeTree.mem_nodesList n fields hn
      exact hfields c hc n hnc

/-- C7, as stated, fails: in the scenario the leaves of Kind `string` and `int`
project to the nil interface, not to the empty string and zero, and the generated
document is not the one of the claim. -/
theorem c7_placeholder_not_by_kind :
    parseStructType configScope 2 "" configFields
      = .ok (.mk "struct" "" .nil
          [.mk "string" "name" .nil [], .mk "struct" "server" .nil [.mk "int" "port" .nil []]])
    ∧ (TypeTree.mk "string" "name" .nil []).ToMap ≠ Value.string ""
    ∧ (TypeTree.mk "int" "port" .nil []).ToMap ≠ Value.number 0
    ∧ generateTemplate configScope 2 configFields none
        ≠ .ok [("name", .string ""), ("server", .object [("port", .number 0)])] := by
  decide

/-- C7, amended: for every leaf node of a Type tree built by `parseStructType`,
`ToMap` emits the nil interface (JSON null), whatever the Kind of the node; in
the scenario, with no existing template and fuel for the two levels of the type,
the generated document is `{"name": null, "server": {"port": null}}`. -/
theorem c7_leaf_placeholder_is_null :
    (∀ (scope : Scope) (fuel : Nat) (name : String) (st : List Field) (t : TypeTree),
        parseStructType scope fuel name st = .ok t →
        ∀ n ∈ TypeTree.nodes t, n.Fields = [] → n.ToMap = Value.nil)
    ∧ ∀ k : Nat, generateTemplate configScope (2 + k) configFields none
        = .ok [("name", .nil), ("server", .object [("port", .nil)])] := by
  constructor
  · intro scope fuel name st t h n hn hleaf
    rw [TypeTree.ToMap_leaf n hleaf]
    exact parseStructType_default_nil scope fuel name st t h n hn
  · intro k
    exact generateTemplate_fuel_add configScope 2 configFields none _ (by decide) k

/-- Instance of C7 (amended): the leaf `port` of Kind `int` in the scenario projects to null. -/
theorem c7_leaf_placeholder_is_null_witness :
    (TypeTree.mk "int" "port" .nil []).ToMap = Value.nil :=
  c7_leaf_placeholder_is_null.1 configScope 2 "" configFields
    (.mk "struct" "" .nil
      [.mk "string" "name" .nil [], .mk "struct" "server" .nil [.mk "int" "port" .nil []]])
    (by decide) (.mk "int" "port" .nil []) (by decide) (by decide)

/-- C8: in the scenario, with the existing template
`{"name": "prod", "server": {"port": 8080}, "obsolete": true}` and fuel for the two
levels of the type, resolving, projecting and merging yields exactly
`{"name": "prod", "server": {"port": 8080}}`. -/
theorem c8_scenario_merge (k : Nat) :
    generateTemplate configScope (2 + k) configFields (some existingTemplate)
      = .ok [("name", .string "prod"), ("server", .object [("port", .number 8080)])] :=
  generateTemplate_fuel_add configScope 2 configFields (some existingTemplate) _ (by decide) k

theorem keys_set (m : Document) (k : String) (v : Value) :
    Document.keys (Document.set m k v)
      = if k ∈ Document.keys m then Document.keys m else Document.keys m ++ [k] := by
  induction m with
  | nil => simp [Document.set, Document.keys]
  | cons e rest ih =>
    obtain ⟨k', v'⟩ := e
    simp only [Document.keys, List.map_cons, List.mem_cons] at ih ⊢
    by_cases h : k' = k
    · subst h; simp [Document.set]
    · have h' : ¬ k = k' := fun e => h e.symm
      simp only [Document.set, h, if_false, List.map_cons, h', false_or, ih]
      split <;> simp

/-- Keys of the map built by the loop of `ToMap`: the keys it started from and the
names of the children, each once; in declaration order when no name repeats. -/
theorem TypeTree.ToMap.loop_keys : ∀ (fs : List TypeTree) (m : Document),
    (∀ k, k ∈ Document.keys (TypeTree.ToMap.loop fs m)
        ↔ k ∈ Document.keys m ∨ k ∈ fs.map TypeTree.TemplateName)
    ∧ ((Document.keys m).Nodup → (Document.keys (TypeTree.ToMap.loop fs m)).Nodup)
    ∧ ((Document.keys m ++ fs.map TypeTree.TemplateName).Nodup →
        Document.keys (TypeTree.ToMap.loop fs m)
          = Document.keys m ++ fs.map TypeTree.TemplateName) := by
  intro fs
  induction fs with
  | nil => intro m; simp [TypeTree.ToMap.loop]
  | cons f rest ih =>
    intro m
    obtain ⟨ih1, ih2, ih3⟩ := ih (Document.set m f.TemplateName f.ToMap)
    have hk := keys_set m f.TemplateName f.ToMap
    simp only [TypeTree.ToMap.loop, List.map_cons, List.mem_cons]
    refine ⟨?_, ?_, ?_⟩
    · intro k
      rw [ih1 k, hk]
      by_cases hmem : f.TemplateName ∈ Document.keys m
      · simp only [hmem, if_true]
        constructor
        · rintro (h | h)
          · exact Or.inl h
          · exact Or.inr (Or.inr h)
        · rintro (h | h | h)
          · exact Or.inl h
          · subst h; exact Or.inl hmem
          · exact Or.inr h
      · simp only [hmem, if_false, List.mem_append, List.mem_singleton]
        tauto
    · intro hnd
      apply ih2
      rw [hk]
      by_cases hmem : f.TemplateName ∈ Document.keys m
      · simpa [hmem] using hnd
      · simp only [hmem, if_false]
        exact List.Nodup.append hnd (List.nodup_singleton _) (by simpa using hmem)
    · intro hnd
      have hmem : f.TemplateName ∉ Document.keys m := by
        intro hmem
        have := (List.nodup_append.mp hnd).2.2
        exact this hmem (by simp)
      have hk' : Document.keys (Document.set m f.TemplateName f.ToMap)
          = Document.keys m ++ [f.TemplateName] := by simpa [hmem] using hk
      rw [ih3 (by rw [hk']; simpa using hnd), hk']
      simp

/-- Keys of the projection of a branch node: the names of its children. -/
theorem TypeTree.ToMap_keys (n : TypeTree) (h : n.Fields ≠ []) :
    ∃ m, n.ToMap = Value.object m
      ∧ (∀ k, k ∈ Document.keys m ↔ k ∈ n.Fields.map TypeTree.TemplateName)
      ∧ (Document.keys m).Nodup
      ∧ ((n.Fields.map TypeTree.TemplateName).Nodup →
          Document.keys m = n.Fields.map TypeTree.TemplateName) := by
  obtain ⟨kind, name, dflt, fields⟩ := n
  cases fields with
  | nil => exact absurd rfl h
  | cons f fs =>
    obtain ⟨h1, h2, h3⟩ := TypeTree.ToMap.loop_keys (f :: fs) []
    refine ⟨TypeTree.ToMap.loop (f :: fs) [], by simp [TypeTree.ToMap], ?_, ?_, ?_⟩
    · intro k; simpa [Document.keys, TypeTree.Fields] using h1 k
    · exact h2 (by simp [Document.keys])
    · intro hnd; simpa [Document.keys, TypeTree.Fields] using h3 (by simpa [Document.keys, TypeTree.Fields] using hnd)

theorem parseStructType.loop_names (scope : Scope)
    (recur : String → List Field → Outcome TypeTree)
    (hrec : ∀ name st t, recur name st = .ok t → t.TemplateName = name) :
    ∀ (fs : List Field) (acc res : List TypeTree),
      parseStructType.loop scope recur fs acc = .ok res →
      res.map TypeTree.TemplateName
        = acc.map TypeTree.TemplateName ++ fs.map Field.templateName := by
  intro fs
  induction fs with
  | nil =>
    intro acc res h
    simp only [parseStructType.loop, Outcome.ok.injEq] at h
    subst h; simp
  | cons f rest ih =>
    intro acc res h
    obtain ⟨names, typ, tag⟩ := f
    simp only [parseStructType.loop] at h
    split at h
    · cases h
    · split at h
      · cases h
      · split at h
        · split at h
          · rename_i child hchild
            rw [ih _ res h]
            simp [Field.templateName, hrec _ _ _ hchild]
          · cases h
          · cases h
        · split at h
          · split at h
            · cases h
            · split at h
              · rename_i child hchild
                rw [ih _ res h]
                simp [Field.templateName, hrec _ _ _ hchild]
              · cases h
              · cases h
            · cases h
          · cases h
        · rw [ih _ res h]
          simp [Field.templateName, TypeTree.TemplateName]
        · rw [ih _ res h]
          simp [Field.templateName, TypeTree.TemplateName]

theorem parseStructType_root (scope : Scope) (fuel : Nat) (name : String) (st : List Field)
    (t : TypeTree) (h : parseStructType scope fuel name st = .ok t) :
    t.Kind = "struct" ∧ t.TemplateName = name := by
  cases fuel with
  | zero => simp [parseStructType] at h
  | succ fuel =>
    simp only [parseStructType] at h
    split at h
    · simp only [Outcome.ok.injEq] at h
      subst h
      exact ⟨rfl, rfl⟩
    · cases h
    · cases h

theorem parseStructType_field_names (scope : Scope) (fuel : Nat) (name : String)
    (st : List Field) (t : TypeTree) (h : parseStructType scope fuel name st = .ok t) :
    t.Fields.map TypeTree.TemplateName = st.map Field.templateName := by
  cases fuel with
  | zero => simp [parseStructType] at h
  | succ fuel =>
    simp only [parseStructType] at h
    split at h
    · rename_i fields hfields
      simp only [Outcome.ok.injEq] at h
      subst h
      have := parseStructType.loop_names scope (parseStructType scope fuel)
        (fun n s c hc => (parseStructType_root scope fuel n s c hc).2) st [] fields hfields
      simpa [TypeTree.Fields] using this
    · cases h
    · cases h

/-- C9, as stated, fails: two fields whose tags carry no `mapstructure` key both get
the empty name, and the projected document has the single key `""` for the two
fields. -/
theorem c9_shared_name_one_key :
    parseStructType [] 1 ""
        [.mk ["Host"] (.ident "string") (some "`json:\"host\"`"),
         .mk ["Port"] (.ident "int") (some "`json:\"port\"`")]
      = .ok (.mk "struct" "" .nil [.mk "string" "" .nil [], .mk "int" "" .nil []])
    ∧ (TypeTree.mk "struct" "" .nil [.mk "string" "" .nil [], .mk "int" "" .nil []]).ToMap
      = Value.object [("", Value.nil)]
    ∧ (Document.keys [("", Value.nil)]).length
      ≠ [Field.mk ["Host"] (.ident "string") (some "`json:\"host\"`"),
         Field.mk ["Port"] (.ident "int") (some "`json:\"port\"`")].length := by
  decide

/-- C9, amended: the tree that `parseStructType` returns for a struct has one child
per field entry, named by the `mapstructure` value of the tag of the field (the
empty string without one); and at every node of the tree that has children,
`ToMap` gives a document whose keys are exactly the names of the children, each
name once: fields that share a name share one key, and when the names are
pairwise distinct there is one key per field, in declaration order. -/
theorem c9_keys_are_field_names (scope : Scope) (fuel : Nat) (name : String)
    (st : List Field) (t : TypeTree) (h : parseStructType scope fuel name st = .ok t) :
    t.Fields.map TypeTree.TemplateName = st.map Field.templateName
    ∧ ∀ n ∈ TypeTree.nodes t, n.Fields ≠ [] →
        ∃ m, n.ToMap = Value.object m
          ∧ (∀ k, k ∈ Document.keys m ↔ k ∈ n.Fields.map TypeTree.TemplateName)
          ∧ (Document.keys m).Nodup
          ∧ ((n.Fields.map TypeTree.TemplateName).Nodup →
              Document.keys m = n.Fields.map TypeTree.TemplateName) :=
  ⟨parseStructType_field_names scope fuel name st t h,
    fun n _ hn => TypeTree.ToMap_keys n hn⟩

/-- Instance of C9 (amended): the children of the scenario root are named by the tags of its fields. -/
theorem c9_keys_are_field_names_witness :
    (TypeTree.mk "struct" "" .nil
        [.mk "string" "name" .nil [],
          .mk "struct" "server" .nil [.mk "int" "port" .nil []]]).Fields.map
        TypeTree.TemplateName
      = configFields.map Field.templateName :=
  (c9_keys_are_field_names configScope 2 "" configFields
    (.mk "struct" "" .nil
      [.mk "string" "name" .nil [], .mk "struct" "server" .nil [.mk "int" "port" .nil []]])
    (by decide)).1

/-- C10, as stated, fails: for the declared struct type `ServerConfig`, the field
`Server *ServerConfig` yields a node of Kind `struct` with the child `port`, and
the field `Server ServerConfig`, declared by value, yields a leaf of Kind
`ServerConfig` without children. -/
theorem c10_by_value_is_leaf :
    parseStructType configScope 2 ""
        [.mk ["Server"] (.starExpr (.ident "ServerConfig")) (some "`mapstructure:\"server\"`")]
      = .ok (.mk "struct" "" .nil [.mk "struct" "server" .nil [.mk "int" "port" .nil []]])
    ∧ parseStructType configScope 2 ""
        [.mk ["Server"] (.ident "ServerConfig") (some "`mapstructure:\"server\"`")]
      = .ok (.mk "struct" "" .nil [.mk "ServerConfig" "server" .nil []])
    ∧ TypeTree.mk "struct" "server" .nil [.mk "int" "port" .nil []]
      ≠ TypeTree.mk "ServerConfig" "server" .nil [] := by
  decide

/-- C10, amended: for every name `T` bound in the file to a struct type `S` and every
tag, a field declared by value with the named type `T` yields a leaf whose Kind is
the name `T`, without children, while a field declared with the pointer type `*T`
yields the node that `parseStructType` returns for `S`: Kind `struct`, one child
per field of `S`.  The two nodes have the same name and are never the same node:
they differ in Kind, since an identifier is never the keyword `struct`, and
their children differ exactly when `S` has at least one field. -/
theorem c10_pointer_and_by_value (scope : Scope) (fuel : Nat) (name T : String)
    (S : List Field) (names : List String) (lit : String)
    (hT : Scope.obj? scope T = some (.typeSpec (.structType S)))
    (hlit : 2 ≤ lit.length) (hkw : T ≠ "struct") :
    parseStructType scope (fuel + 1) name [.mk names (.ident T) (some lit)]
      = .ok (.mk "struct" name .nil
          [.mk T (StructTag.Get (tagWithoutTickets lit) "mapstructure") .nil []])
    ∧ ∀ child : TypeTree,
        parseStructType scope fuel (StructTag.Get (tagWithoutTickets lit) "mapstructure") S
          = .ok child →
        parseStructType scope (fuel + 1) name [.mk names (.starExpr (.ident T)) (some lit)]
          = .ok (.mk "struct" name .nil [child])
        ∧ child.Kind = "struct"
        ∧ child.TemplateName = StructTag.Get (tagWithoutTickets lit) "mapstructure"
        ∧ child.Fields.map TypeTree.TemplateName = S.map Field.templateName
        ∧ child.Kind
            ≠ (TypeTree.mk T (StructTag.Get (tagWithoutTickets lit) "mapstructure") .nil []).Kind
        ∧ child ≠ TypeTree.mk T (StructTag.Get (tagWithoutTickets lit) "mapstructure") .nil []
        ∧ (child.Fields
            = (TypeTree.mk T (StructTag.Get (tagWithoutTickets lit) "mapstructure") .nil []).Fields
            ↔ S = []) := by
  have hlen : ¬ lit.length < 2 := by omega
  constructor
  · simp [parseStructType, parseStructType.loop, hlen]
  · intro child hchild
    have hkind := (parseStructType_root _ _ _ _ _ hchild).1
    have hnames := parseStructType_field_names _ _ _ _ _ hchild
    refine ⟨?_, hkind, (parseStructType_root _ _ _ _ _ hchild).2, hnames, ?_, ?_, ?_⟩
    · simp [parseStructType, parseStructType.loop, hlen, hT, hchild]
    · rw [hkind]
      exact fun h => hkw h.symm
    · intro h
      rw [h] at hkind
      exact hkw hkind
    · show child.Fields = [] ↔ S = []
      constructor
      · intro hf
        rw [hf] at hnames
        cases S with
        | nil => rfl
        | cons f fs => simp at hnames
      · intro hS
        rw [hS] at hnames
        simpa using hnames

/-- Instance of C10 (amended): the field `Server ServerConfig`, declared by value, is a
leaf of Kind `ServerConfig`. -/
theorem c10_pointer_and_by_value_witness :
    parseStructType configScope 2 ""
        [.mk ["Server"] (.ident "ServerConfig") (some "`mapstructure:\"server\"`")]
      = .ok (.mk "struct" "" .nil
          [.mk "ServerConfig"
            (StructTag.Get (tagWithoutTickets "`mapstructure:\"server\"`") "mapstructure")
            .nil []]) :=
  (c10_pointer_and_by_value configScope 1 "" "ServerConfig" serverConfigFields ["Server"]
    "`mapstructure:\"server\"`" rfl (by decide) (by decide)).1

/-! ## Theorems: failures and termination of the resolver -/

/-- The field loop over `pre ++ post` runs over `pre`, then over `post` from the
children collected so far; a panic inside `pre` ends it. -/
theorem parseStructType.loop_append (scope : Scope)
    (recur : String → List Field → Outcome TypeTree) :
    ∀ (pre post : List Field) (acc : List TypeTree),
      parseStructType.loop scope recur (pre ++ post) acc
        = match parseStructType.loop scope recur pre acc with
          | .ok acc' => parseStructType.loop scope recur post acc'
          | .panic p => .panic p
          | .outOfFuel => .outOfFuel := by
  intro pre
  induction pre with
  | nil => intro post acc; simp [parseStructType.loop]
  | cons f pre ih =>
    intro post acc
    obtain ⟨names, typ, tag⟩ := f
    simp only [List.cons_append, parseStructType.loop]
    cases tag with
    | none => rfl
    | some lit =>
      simp only
      by_cases hlen : lit.length < 2
      · simp [hlen]
      · simp only [hlen, if_false]
        cases typ with
        | structType x =>
          simp only
          cases recur (StructTag.Get (tagWithoutTickets lit) "mapstructure") x with
          | ok child => simp only; exact ih post _
          | panic p => rfl
          | outOfFuel => rfl
        | starExpr x =>
          cases x with
          | ident name =>
            simp only
            cases hobj : Scope.obj? scope name with
            | none => rfl
            | some d =>
              cases d with
              | otherDecl => rfl
              | typeSpec t =>
                cases t with
                | structType S =>
                  simp only
                  cases recur (StructTag.Get (tagWithoutTickets lit) "mapstructure") S with
                  | ok child => simp only; exact ih post _
                  | panic p => rfl
                  | outOfFuel => rfl
                | _ => rfl
          | _ => rfl
        | ident name => simp only; exact ih post _
        | _ => simp only; exact ih post _

theorem Scope.obj?_mem : ∀ (scope : Scope) (name : String) (d : ObjDecl),
    Scope.obj? scope name = some d → (name, d) ∈ scope
  | [], _, _, h => by simp [Scope.obj?] at h
  | (n, d') :: rest, name, d, h => by
    simp only [Scope.obj?] at h
    by_cases hn : n = name
    · simp only [hn, if_true, Option.some.injEq] at h
      subst h; subst hn; simp
    · simp only [hn, if_false] at h
      exact List.mem_cons_of_mem _ (Scope.obj?_mem rest name d h)

theorem scopeDepth_le : ∀ (scope : Scope) (name : String) (typ : Expr),
    (name, ObjDecl.typeSpec typ) ∈ scope → typeDepth typ ≤ scopeDepth scope
  | [], _, _, h => by simp at h
  | (n, .typeSpec t) :: rest, name, typ, h => by
    simp only [List.mem_cons, Prod.mk.injEq, ObjDecl.typeSpec.injEq] at h
    simp only [scopeDepth]
    rcases h with ⟨_, rfl⟩ | h
    · exact Nat.le_max_left _ _
    · exact Nat.le_trans (scopeDepth_le rest name typ h) (Nat.le_max_right _ _)
  | (n, .otherDecl) :: rest, name, typ, h => by
    simp only [List.mem_cons, Prod.mk.injEq] at h
    simp only [scopeDepth]
    rcases h with ⟨_, h⟩ | h
    · cases h
    · exact scopeDepth_le rest name typ h

/-- What a resolvable file gives for a struct type it binds: the struct is resolvable
below its own rank, and its inline depth is within the depth of the file. -/
theorem resolvableScope_obj (scope : Scope) (rank : String → Nat) (tags : Bool)
    (hscope : resolvableScope scope rank tags = true) (name : String) (fields : List Field)
    (h : Scope.obj? scope name = some (.typeSpec (.structType fields))) :
    resolvableFields scope rank tags (rank name) fields = true
      ∧ fieldsDepth fields + 1 ≤ scopeDepth scope := by
  have hmem := Scope.obj?_mem scope name _ h
  constructor
  · have := (List.all_eq_true.mp hscope) _ hmem
    simpa using this
  · have := scopeDepth_le scope name _ hmem
    simpa [typeDepth] using this

theorem parseStructType.loop_total (scope : Scope) (rank : String → Nat) (tags : Bool)
    (hscope : resolvableScope scope rank tags = true) (fuel : Nat)
    (recur : String → List Field → Outcome TypeTree)
    (hrec : ∀ (b : Nat) (x : List Field) (name : String),
      resolvableFields scope rank tags b x = true →
      fieldsDepth x + 1 + b * scopeDepth scope ≤ fuel →
      recur name x ≠ .outOfFuel ∧ (tags = true → ∃ t, recur name x = .ok t))
    (b : Nat) :
    ∀ (fs : List Field) (acc : List TypeTree),
      resolvableFields scope rank tags b fs = true →
      fieldsDepth fs + b * scopeDepth scope ≤ fuel →
      parseStructType.loop scope recur fs acc ≠ .outOfFuel
        ∧ (tags = true → ∃ res, parseStructType.loop scope recur fs acc = .ok res) := by
  intro fs
  induction fs with
  | nil => intro acc _ _; simp [parseStructType.loop]
  | cons f fs ih =>
    intro acc hres hfuel
    obtain ⟨names, typ, tag⟩ := f
    simp only [resolvableFields, resolvableField, Bool.and_eq_true, Bool.or_eq_true,
      Bool.not_eq_true'] at hres
    obtain ⟨⟨htag, htyp⟩, hfs⟩ := hres
    simp only [fieldsDepth, fieldDepth] at hfuel
    have hfs' : fieldsDepth fs + b * scopeDepth scope ≤ fuel :=
      Nat.le_trans (Nat.add_le_add_right (Nat.le_max_right _ _) _) hfuel
    have htyp' : typeDepth typ + b * scopeDepth scope ≤ fuel :=
      Nat.le_trans (Nat.add_le_add_right (Nat.le_max_left _ _) _) hfuel
    simp only [parseStructType.loop]
    cases tag with
    | none =>
      refine ⟨by simp, fun ht => ?_⟩
      rcases htag with h | h
      · rw [ht] at h; cases h
      · simp [hasTag] at h
    | some lit =>
      simp only
      by_cases hlen : lit.length < 2
      · simp only [hlen, if_true]
        refine ⟨by simp, fun ht => ?_⟩
        rcases htag with h | h
        · rw [ht] at h; cases h
        · simp only [hasTag, decide_eq_true_eq] at h; omega
      · simp only [hlen, if_false]
        cases typ with
        | structType x =>
          simp only [resolvableType] at htyp
          simp only [typeDepth] at htyp'
          have hx := hrec b x (StructTag.Get (tagWithoutTickets lit) "mapstructure") htyp
            (by omega)
          simp only
          cases hr : recur (StructTag.Get (tagWithoutTickets lit) "mapstructure") x with
          | ok child => simp only; exact ih _ hfs hfs'
          | panic p =>
            refine ⟨by simp, fun ht => ?_⟩
            obtain ⟨t, h⟩ := hx.2 ht
            rw [hr] at h; cases h
          | outOfFuel => exact absurd hr hx.1
        | starExpr x =>
          cases x with
          | ident name =>
            simp only [resolvableType] at htyp
            simp only
            cases hobj : Scope.obj? scope name with
            | none => rw [hobj] at htyp; simp at htyp
            | some d =>
              cases d with
              | otherDecl => rw [hobj] at htyp; simp at htyp
              | typeSpec t =>
                cases t with
                | structType S =>
                  rw [hobj] at htyp
                  simp only [decide_eq_true_eq] at htyp
                  obtain ⟨hS, hdepth⟩ := resolvableScope_obj scope rank tags hscope name S hobj
                  have hmul := Nat.mul_le_mul_right (scopeDepth scope) (Nat.succ_le_of_lt htyp)
                  rw [Nat.succ_mul] at hmul
                  have hx := hrec (rank name) S
                    (StructTag.Get (tagWithoutTickets lit) "mapstructure") hS (by omega)
                  simp only
                  cases hr : recur (StructTag.Get (tagWithoutTickets lit) "mapstructure") S with
                  | ok child => simp only; exact ih _ hfs hfs'
                  | panic p =>
                    refine ⟨by simp, fun ht => ?_⟩
                    obtain ⟨t, h⟩ := hx.2 ht
                    rw [hr] at h; cases h
                  | outOfFuel => exact absurd hr hx.1
                | _ => rw [hobj] at htyp; simp at htyp
          | _ => simp [resolvableType] at htyp
        | ident name => simp only; exact ih _ hfs hfs'
        | _ => simp only; exact ih _ hfs hfs'

/-- Termination of the resolver on a resolvable file.  With fuel for the inline depth
of the struct and, for every rank below `b`, the inline depth of the file, the
run is not cut short; when every field has a tag it returns a tree. -/
theorem parseStructType_total (scope : Scope) (rank : String → Nat) (tags : Bool)
    (hscope : resolvableScope scope rank tags = true) :
    ∀ (fuel b : Nat) (st : List Field) (name : String),
      resolvableFields scope rank tags b st = true →
      fieldsDepth st + 1 + b * scopeDepth scope ≤ fuel →
      parseStructType scope fuel name st ≠ .outOfFuel
        ∧ (tags = true → ∃ t, parseStructType scope fuel name st = .ok t) := by
  intro fuel
  induction fuel with
  | zero => intro b st name _ h; omega
  | succ fuel ih =>
    intro b st name hres hfuel
    have hloop := parseStructType.loop_total scope rank tags hscope fuel
      (parseStructType scope fuel) (fun b x name h1 h2 => ih b x name h1 h2) b st []
      hres (by omega)
    simp only [parseStructType]
    cases hr : parseStructType.loop scope (parseStructType scope fuel) st [] with
    | ok fields => simp
    | panic p =>
      refine ⟨by simp, fun ht => ?_⟩
      obtain ⟨res, h⟩ := hloop.2 ht
      rw [hr] at h; cases h
    | outOfFuel => exact absurd hr hloop.1

theorem parseStructType_ok_iff (scope : Scope) (fuel : Nat) (name : String) (st : List Field)
    (t : TypeTree) :
    parseStructType scope (fuel + 1) name st = .ok t
      ↔ ∃ fields, parseStructType.loop scope (parseStructType scope fuel) st [] = .ok fields
          ∧ t = .mk "struct" name .nil fields := by
  simp only [parseStructType]
  cases parseStructType.loop scope (parseStructType scope fuel) st [] with
  | ok fields => simp [eq_comm]
  | panic p => simp
  | outOfFuel => simp

/-- A field on which the loop never returns keeps every struct that contains it from
being resolved, wherever it stands among the fields. -/
theorem parseStructType_never_ok (scope : Scope) (f : Field) (post : List Field)
    (hf : ∀ (recur : String → List Field → Outcome TypeTree) (acc res : List TypeTree),
      parseStructType.loop scope recur (f :: post) acc ≠ .ok res)
    (fuel : Nat) (name : String) (pre : List Field) (t : TypeTree) :
    parseStructType scope fuel name (pre ++ f :: post) ≠ .ok t := by
  cases fuel with
  | zero => simp [parseStructType]
  | succ fuel =>
    intro h
    obtain ⟨fields, hloop, _⟩ := (parseStructType_ok_iff scope fuel name _ t).mp h
    rw [parseStructType.loop_append] at hloop
    cases hpre : parseStructType.loop scope (parseStructType scope fuel) pre [] with
    | ok acc => rw [hpre] at hloop; exact hf _ acc fields hloop
    | panic p => rw [hpre] at hloop; cases hloop
    | outOfFuel => rw [hpre] at hloop; cases hloop

theorem parseStructType.loop_untagged (scope : Scope)
    (recur : String → List Field → Outcome TypeTree) (names : List String) (typ : Expr)
    (post : List Field) (acc : List TypeTree) :
    parseStructType.loop scope recur (.mk names typ none :: post) acc
      = .panic .nilDereference := by
  simp [parseStructType.loop]

theorem parseStructType.loop_unbound (scope : Scope)
    (recur : String → List Field → Outcome TypeTree) (names : List String) (X : String)
    (tag : Option String) (post : List Field) (acc : List TypeTree)
    (hX : ∀ S, Scope.obj? scope X ≠ some (.typeSpec (.structType S))) :
    ∃ p, parseStructType.loop scope recur (.mk names (.starExpr (.ident X)) tag :: post) acc
      = .panic p
      ∧ (∀ lit, tag = some lit → 2 ≤ lit.length →
          p = if (Scope.obj? scope X).isNone then .nilDereference else .typeAssertion) := by
  simp only [parseStructType.loop]
  cases tag with
  | none => exact ⟨_, rfl, fun lit h => by cases h⟩
  | some lit =>
    simp only
    by_cases hlen : lit.length < 2
    · simp only [hlen, if_true]
      exact ⟨_, rfl, fun lit' h hl => by cases h; omega⟩
    · simp only [hlen, if_false]
      cases hobj : Scope.obj? scope X with
      | none => exact ⟨_, rfl, fun _ _ _ => by simp⟩
      | some d =>
        cases d with
        | otherDecl => exact ⟨_, rfl, fun _ _ _ => by simp⟩
        | typeSpec t =>
          cases t with
          | structType S => exact absurd hobj (hX S)
          | _ => exact ⟨_, rfl, fun _ _ _ => by simp⟩

/-- C11: for every name `T` that the file binds to the struct type `S` and every tag,
a field of type `*T` and a field whose type is the inline struct `S` with the
same tag resolve alike wherever they stand in a struct, failures included; the
child both produce is the node that `parseStructType` returns for `S` under the
name read from the tag: Kind `struct`, that name, the children of `S`. -/
theorem c11_pointer_as_inline_struct (scope : Scope) (fuel : Nat) (name T : String)
    (S : List Field) (names : List String) (tag : Option String) (pre post : List Field)
    (hT : Scope.obj? scope T = some (.typeSpec (.structType S))) :
    parseStructType scope fuel name (pre ++ .mk names (.starExpr (.ident T)) tag :: post)
      = parseStructType scope fuel name (pre ++ .mk names (.structType S) tag :: post)
    ∧ ∀ (lit : String) (child : TypeTree), tag = some lit → 2 ≤ lit.length →
        parseStructType scope fuel (StructTag.Get (tagWithoutTickets lit) "mapstructure") S
          = .ok child →
        parseStructType scope (fuel + 1) name [.mk names (.starExpr (.ident T)) tag]
          = .ok (.mk "struct" name .nil [child])
        ∧ parseStructType scope (fuel + 1) name [.mk names (.structType S) tag]
          = .ok (.mk "struct" name .nil [child])
        ∧ child.Kind = "struct"
        ∧ child.TemplateName = StructTag.Get (tagWithoutTickets lit) "mapstructure" := by
  have hstep : ∀ (recur : String → List Field → Outcome TypeTree) (rest : List Field)
      (acc : List TypeTree),
      parseStructType.loop scope recur (.mk names (.starExpr (.ident T)) tag :: rest) acc
        = parseStructType.loop scope recur (.mk names (.structType S) tag :: rest) acc := by
    intro recur rest acc
    simp only [parseStructType.loop, hT]
  constructor
  · cases fuel with
    | zero => rfl
    | succ fuel =>
      simp only [parseStructType, parseStructType.loop_append, hstep]
  · intro lit child htag hlit hchild
    subst htag
    have hlen : ¬ lit.length < 2 := by omega
    refine ⟨?_, ?_, (parseStructType_root _ _ _ _ _ hchild).1,
      (parseStructType_root _ _ _ _ _ hchild).2⟩
    · simp [parseStructType, parseStructType.loop, hlen, hT, hchild]
    · simp [parseStructType, parseStructType.loop, hlen, hchild]

/-- Instance of C11 on the scenario: `Server *ServerConfig` resolves like the inline
`Server struct { Port int }`. -/
theorem c11_pointer_as_inline_struct_witness :
    parseStructType configScope 2 ""
        ([] ++ .mk ["Server"] (.starExpr (.ident "ServerConfig"))
          (some "`mapstructure:\"server\"`") :: [])
      = parseStructType configScope 2 ""
        ([] ++ .mk ["Server"] (.structType serverConfigFields)
          (some "`mapstructure:\"server\"`") :: []) :=
  (c11_pointer_as_inline_struct configScope 2 "" "ServerConfig" serverConfigFields ["Server"]
    (some "`mapstructure:\"server\"`") [] [] rfl).1

/-- The children that the field loop returns: those it started from, then one child
per field, as `childMatches` describes it. -/
theorem parseStructType.loop_children (scope : Scope)
    (recur : String → List Field → Outcome TypeTree) :
    ∀ (fs : List Field) (acc res : List TypeTree),
      parseStructType.loop scope recur fs acc = .ok res →
      ∃ children, res = acc ++ children
        ∧ List.Forall₂ (childMatches scope recur) fs children := by
  intro fs
  induction fs with
  | nil =>
    intro acc res h
    simp only [parseStructType.loop, Outcome.ok.injEq] at h
    exact ⟨[], by simp [h], List.Forall₂.nil⟩
  | cons f fs ih =>
    intro acc res h
    obtain ⟨names, typ, tag⟩ := f
    have hcons : ∀ (c : TypeTree),
        childMatches scope recur (.mk names typ tag) c →
        parseStructType.loop scope recur fs (acc ++ [c]) = .ok res →
        ∃ children, res = acc ++ children
          ∧ List.Forall₂ (childMatches scope recur) (.mk names typ tag :: fs) children := by
      intro c hc hrest
      obtain ⟨children, hres, hall⟩ := ih _ res hrest
      exact ⟨c :: children, by simp [hres], List.Forall₂.cons hc hall⟩
    simp only [parseStructType.loop] at h
    cases tag with
    | none => cases h
    | some lit =>
      simp only at h
      by_cases hlen : lit.length < 2
      · simp [hlen] at h
      · simp only [hlen, if_false] at h
        cases typ with
        | structType x =>
          simp only at h
          cases hr : recur (StructTag.Get (tagWithoutTickets lit) "mapstructure") x with
          | ok child =>
            rw [hr] at h
            exact hcons child (by simpa [childMatches, Field.templateName] using hr) h
          | panic p => rw [hr] at h; cases h
          | outOfFuel => rw [hr] at h; cases h
        | starExpr x =>
          cases x with
          | ident name =>
            simp only at h
            cases hobj : Scope.obj? scope name with
            | none => rw [hobj] at h; cases h
            | some d =>
              cases d with
              | otherDecl => rw [hobj] at h; cases h
              | typeSpec t =>
                cases t with
                | structType S =>
                  rw [hobj] at h
                  simp only at h
                  cases hr : recur (StructTag.Get (tagWithoutTickets lit) "mapstructure") S with
                  | ok child =>
                    rw [hr] at h
                    exact hcons child
                      (by simpa [childMatches, Field.templateName] using ⟨S, hobj, hr⟩) h
                  | panic p => rw [hr] at h; cases h
                  | outOfFuel => rw [hr] at h; cases h
                | _ => rw [hobj] at h; cases h
          | _ => cases h
        | ident name => exact hcons _ (by simp [childMatches, Field.templateName]) h
        | selectorExpr _ _ => exact hcons _ (by simp [childMatches, Field.templateName]) h
        | arrayType _ => exact hcons _ (by simp [childMatches, Field.templateName]) h
        | mapType _ _ => exact hcons _ (by simp [childMatches, Field.templateName]) h
        | funcType => exact hcons _ (by simp [childMatches, Field.templateName]) h
        | other _ => exact hcons _ (by simp [childMatches, Field.templateName]) h

/-- C12, as stated, fails: a struct with the field `Port *int` yields no node, whatever
the recursion bound; the identifier `int` is not bound in the file and the run
ends in a nil dereference. -/
theorem c12_pointer_to_unbound_yields_nothing :
    (¬ ∃ (fuel : Nat) (t : TypeTree),
        parseStructType [] fuel ""
          [.mk ["Port"] (.starExpr (.ident "int")) (some "`mapstructure:\"port\"`")] = .ok t)
    ∧ parseStructType [] 1 ""
        [.mk ["Port"] (.starExpr (.ident "int")) (some "`mapstructure:\"port\"`")]
      = .panic .nilDereference := by
  refine ⟨?_, by decide⟩
  rintro ⟨fuel, t, h⟩
  refine parseStructType_never_ok [] _ [] ?_ fuel "" [] t h
  intro recur acc res hres
  obtain ⟨p, hp, _⟩ := parseStructType.loop_unbound [] recur ["Port"] "int"
    (some "`mapstructure:\"port\"`") [] acc (by intro S h; simp [Scope.obj?] at h)
  rw [hp] at hres
  cases hres

/-- C12, amended: whenever `parseStructType` returns for a struct, it returns a node of
Kind `struct` with the given name and one child per field entry, in declaration
order, each as `childMatches` describes it (named by the `mapstructure` value of
the tag; a leaf of Kind the type name for an identifier, a leaf of Kind `unknown`
for another shape that is neither an inline struct nor a pointer, the resolved
struct node for an inline struct and for a pointer to a declared struct type);
and it does return, given fuel for the depth of the types, for every struct of a
file whose fields all have a tag and whose pointer fields lead only to declared
struct types of smaller rank. -/
theorem c12_fields_in_order (scope : Scope) (rank : String → Nat) (b : Nat)
    (st : List Field) (name : String) (fuel : Nat)
    (hscope : resolvableScope scope rank true = true)
    (hst : resolvableFields scope rank true b st = true)
    (hfuel : fieldsDepth st + 1 + b * scopeDepth scope ≤ fuel) :
    (∃ children, parseStructType scope fuel name st = .ok (.mk "struct" name .nil children)
      ∧ List.Forall₂ (childMatches scope (parseStructType scope (fuel - 1))) st children)
    ∧ ∀ (scope' : Scope) (fuel' : Nat) (name' : String) (st' : List Field) (t : TypeTree),
        parseStructType scope' (fuel' + 1) name' st' = .ok t →
        ∃ children, t = .mk "struct" name' .nil children
          ∧ List.Forall₂ (childMatches scope' (parseStructType scope' fuel')) st' children := by
  have hpartial : ∀ (scope' : Scope) (fuel' : Nat) (name' : String) (st' : List Field)
      (t : TypeTree), parseStructType scope' (fuel' + 1) name' st' = .ok t →
      ∃ children, t = .mk "struct" name' .nil children
        ∧ List.Forall₂ (childMatches scope' (parseStructType scope' fuel')) st' children := by
    intro scope' fuel' name' st' t h
    obtain ⟨fields, hloop, ht⟩ := (parseStructType_ok_iff scope' fuel' name' st' t).mp h
    obtain ⟨children, hres, hall⟩ :=
      parseStructType.loop_children scope' _ st' [] fields hloop
    simp only [List.nil_append] at hres
    subst hres
    exact ⟨fields, ht, hall⟩
  refine ⟨?_, hpartial⟩
  obtain ⟨t, ht⟩ := (parseStructType_total scope rank true hscope fuel b st name hst hfuel).2 rfl
  cases fuel with
  | zero => omega
  | succ fuel =>
    obtain ⟨children, hc, hall⟩ := hpartial scope fuel name st t ht
    subst hc
    exact ⟨children, ht, hall⟩

/-- Instance of C12 on the scenario: the root `Config` resolves with fuel 3. -/
theorem c12_fields_in_order_witness :
    ∃ children, parseStructType configScope 3 "" configFields
        = .ok (.mk "struct" "" .nil children)
      ∧ List.Forall₂ (childMatches configScope (parseStructType configScope (3 - 1)))
          configFields children :=
  (c12_fields_in_order configScope configRank 2 configFields "" 3
    (by decide) (by decide) (by decide)).1

theorem findRootTypeSpec.specs_none (name : String) : ∀ (specs : List Spec),
    (specs.any fun s =>
      match s with
      | .typeSpec n _ => decide (n = name)
      | _ => false) = false →
    findRootTypeSpec.specs name specs = none
  | [], _ => rfl
  | .importSpec :: rest, h => by
    simp only [List.any_cons, Bool.false_or] at h
    simpa [findRootTypeSpec.specs] using findRootTypeSpec.specs_none name rest h
  | .valueSpec _ :: rest, h => by
    simp only [List.any_cons, Bool.false_or] at h
    simpa [findRootTypeSpec.specs] using findRootTypeSpec.specs_none name rest h
  | .typeSpec n t :: rest, h => by
    simp only [List.any_cons, Bool.or_eq_false_iff, decide_eq_false_iff_not] at h
    simp only [findRootTypeSpec.specs, h.1, if_false]
    exact findRootTypeSpec.specs_none name rest h.2

/-- What `findRootTypeSpec` returns when no declaration of the list is a type of the
requested name: no struct, and an error whose message is built from the package
variable `opts.RootTypeName`. -/
theorem findRootTypeSpec_not_found (opts : TemplateOptions) (rootTypeName : String)
    (decls : List Decl) (h : declaresType rootTypeName decls = false) :
    findRootTypeSpec opts rootTypeName decls
      = .ok (none, some ("Couldn't find roottype '" ++ opts.RootTypeName ++ "'.")) := by
  induction decls with
  | nil => rfl
  | cons d rest ih =>
    simp only [declaresType, List.any_cons, Bool.or_eq_false_iff] at h
    have hrest : declaresType rootTypeName rest = false := by
      simpa [declaresType] using h.2
    cases d with
    | badDecl => simpa [findRootTypeSpec] using ih hrest
    | funcDecl n r => simpa [findRootTypeSpec] using ih hrest
    | genDecl specs =>
      simp only [findRootTypeSpec, findRootTypeSpec.specs_none rootTypeName specs h.1]
      exact ih hrest

/-- C13: for every requested root type name and every list of declarations without a
type of that name, `findRootTypeSpec` returns no struct and an error whose message
names the requested name.  The function is called with the name held by the
package variable `opts` (`findRootTypeSpec(opts.RootTypeName, ...)`, the one call
of the program), from which the message is built; the action of `main` then
ends with that error, whatever the other answers of the run. -/
theorem c13_not_found_names_requested (opts : TemplateOptions) (rootTypeName : String)
    (decls : List Decl) (hcall : opts.RootTypeName = rootTypeName)
    (h : declaresType rootTypeName decls = false) :
    findRootTypeSpec opts rootTypeName decls
      = .ok (none, some ("Couldn't find roottype '" ++ rootTypeName ++ "'."))
    ∧ ∀ (fuel : Nat) (existing : Option Document) (marshalErr writeErr : Option String),
        mainAction opts fuel ⟨.ok decls, existing, marshalErr, writeErr⟩
          = .ok (some ("Couldn't find roottype '" ++ rootTypeName ++ "'.")) := by
  have hfind := findRootTypeSpec_not_found opts rootTypeName decls h
  rw [hcall] at hfind
  refine ⟨hfind, ?_⟩
  intro fuel existing marshalErr writeErr
  simp only [mainAction, hcall, hfind]

/-- Instance of C13: the root type `Settings` is requested on the scenario file, which
declares `Config` and `ServerConfig` only. -/
theorem c13_not_found_names_requested_witness :
    findRootTypeSpec ⟨"Settings", false⟩ "Settings" configDecls
      = .ok (none, some ("Couldn't find roottype '" ++ "Settings" ++ "'.")) :=
  (c13_not_found_names_requested ⟨"Settings", false⟩ "Settings" configDecls rfl
    (by decide)).1

/-- C14: a field without a tag makes `parseStructType` panic.  No struct that contains
such a field is ever resolved to a tree, and a struct whose first field has no tag
ends in the nil dereference of `f.Tag.Value`, as `struct { Name string }` does. -/
theorem c14_untagged_field_panics :
    (∀ (scope : Scope) (fuel : Nat) (name : String) (pre : List Field) (names : List String)
        (typ : Expr) (post : List Field) (t : TypeTree),
        parseStructType scope fuel name (pre ++ .mk names typ none :: post) ≠ .ok t)
    ∧ (∀ (scope : Scope) (fuel : Nat) (name : String) (names : List String) (typ : Expr)
        (post : List Field),
        parseStructType scope (fuel + 1) name (.mk names typ none :: post)
          = .panic .nilDereference)
    ∧ parseStructType [] 1 "" [.mk ["Name"] (.ident "string") none]
        = .panic .nilDereference := by
  refine ⟨?_, ?_, by decide⟩
  · intro scope fuel name pre names typ post t
    refine parseStructType_never_ok scope _ post ?_ fuel name pre t
    intro recur acc res h
    rw [parseStructType.loop_untagged] at h
    cases h
  · intro scope fuel name names typ post
    simp [parseStructType, parseStructType.loop]

/-- Two structs whose pointer fields name different unbound identifiers end in one and
the same nil-dereference panic, which carries no identifier. -/
theorem c15_panic_names_nothing :
    parseStructType [] 1 ""
        [.mk ["Server"] (.starExpr (.ident "ServerConfig")) (some "`mapstructure:\"server\"`")]
      = .panic .nilDereference
    ∧ parseStructType [] 1 ""
        [.mk ["Server"] (.starExpr (.ident "Missing")) (some "`mapstructure:\"server\"`")]
      = .panic .nilDereference := by
  decide

/-- C15: a struct with a pointer field whose target identifier is not bound to a
declared struct type is never resolved to a Type tree, but the failure is not a
reported error that names the identifier: when the fields before it resolve, the
run ends in a Go run-time panic, the nil dereference of `Obj` when the identifier
is unbound and a failed type assertion when it is bound to something else, the
same for every identifier. -/
theorem c15_unbound_pointer_target (scope : Scope) (fuel : Nat) (name X : String)
    (pre post : List Field) (names : List String) (tag : Option String)
    (hX : ∀ S, Scope.obj? scope X ≠ some (.typeSpec (.structType S))) :
    (∀ t, parseStructType scope fuel name (pre ++ .mk names (.starExpr (.ident X)) tag :: post)
        ≠ .ok t)
    ∧ (∀ lit, tag = some lit → 2 ≤ lit.length →
        parseStructType scope (fuel + 1) name (.mk names (.starExpr (.ident X)) tag :: post)
          = .panic (if (Scope.obj? scope X).isNone then .nilDereference else .typeAssertion)) := by
  constructor
  · intro t
    refine parseStructType_never_ok scope _ post ?_ fuel name pre t
    intro recur acc res h
    obtain ⟨p, hp, _⟩ := parseStructType.loop_unbound scope recur names X tag post acc hX
    rw [hp] at h
    cases h
  · intro lit htag hlit
    obtain ⟨p, hp, hpanic⟩ := parseStructType.loop_unbound scope
      (parseStructType scope fuel) names X tag post [] hX
    simp only [parseStructType, hp, hpanic lit htag hlit]

/-- Instance of C15: `Timeout *Duration` with `Duration` bound to a
function, not a type, ends in a failed type assertion. -/
theorem c15_unbound_pointer_target_witness :
    parseStructType [("Duration", .otherDecl)] (0 + 1) ""
        (.mk ["Timeout"] (.starExpr (.ident "Duration")) (some "`mapstructure:\"timeout\"`")
          :: [])
      = .panic (if (Scope.obj? [("Duration", ObjDecl.otherDecl)] "Duration").isNone
          then .nilDereference else .typeAssertion) :=
  (c15_unbound_pointer_target [("Duration", .otherDecl)] 0 "" "Duration" [] [] ["Timeout"]
    (some "`mapstructure:\"timeout\"`") (by intro S h; simp [Scope.obj?] at h)).2
    "`mapstructure:\"timeout\"`" rfl (by decide)

/-- C16: the root does not always project to a map.  For the root `struct {}` the tree
has no Fields, `ToMap` returns the nil default value, and the assertion of `main`
to `map[string]interface{}` panics; for every root with at least one field that
`parseStructType` resolves, `ToMap` is a map. -/
theorem c16_empty_root_is_not_a_map :
    (∀ (scope : Scope) (fuel : Nat) (existing : Option Document),
        parseStructType scope (fuel + 1) "" [] = .ok (.mk "struct" "" .nil [])
        ∧ (TypeTree.mk "struct" "" .nil []).ToMap = Value.nil
        ∧ generateTemplate scope (fuel + 1) [] existing = .panic .typeAssertion)
    ∧ ∀ (scope : Scope) (fuel : Nat) (name : String) (st : List Field) (t : TypeTree),
        st ≠ [] → parseStructType scope fuel name st = .ok t →
        ∃ m, t.ToMap = Value.object m := by
  constructor
  · intro scope fuel existing
    refine ⟨by simp [parseStructType, parseStructType.loop], by simp [TypeTree.ToMap], ?_⟩
    simp [generateTemplate, parseStructType, parseStructType.loop, TypeTree.ToMap]
  · intro scope fuel name st t hst h
    have hnames := parseStructType_field_names scope fuel name st t h
    have hne : t.Fields ≠ [] := by
      intro hnil
      rw [hnil] at hnames
      cases st with
      | nil => exact hst rfl
      | cons f fs => simp at hnames
    obtain ⟨m, hm, _⟩ := TypeTree.ToMap_keys t hne
    exact ⟨m, hm⟩

/-- C17, as stated, fails: for `struct { Options struct {}; Name string }` the field
`Options` gives a node of Kind `struct` without children, so Kind `struct` does not
come with non-empty Fields; and neither that node nor the leaf `name` has a
default value, so both are neither a branch with children nor a leaf with a
default value. -/
theorem c17_struct_node_without_children :
    parseStructType [] 2 ""
        [.mk ["Options"] (.structType []) (some "`mapstructure:\"options\"`"),
         .mk ["Name"] (.ident "string") (some "`mapstructure:\"name\"`")]
      = .ok (.mk "struct" "" .nil
          [.mk "struct" "options" .nil [], .mk "string" "name" .nil []])
    ∧ (TypeTree.mk "struct" "options" .nil []).Kind = "struct"
    ∧ (TypeTree.mk "struct" "options" .nil []).Fields = []
    ∧ (TypeTree.mk "struct" "options" .nil []).TemplateDefaultValue = Value.nil
    ∧ (TypeTree.mk "string" "name" .nil []).Fields = []
    ∧ (TypeTree.mk "string" "name" .nil []).TemplateDefaultValue = Value.nil := by
  decide

/-- Every node of a tree built by `parseStructType` is without a default value, and it
is either the node that `parseStructType` returns for some struct, with one child
per field of that struct, or a node without children. -/
theorem parseStructType_nodes (scope : Scope) :
    ∀ (fuel : Nat) (name : String) (st : List Field) (t : TypeTree),
      parseStructType scope fuel name st = .ok t →
      ∀ n ∈ TypeTree.nodes t,
        n.TemplateDefaultValue = Value.nil
        ∧ ((∃ (fuel' : Nat) (st' : List Field),
              parseStructType scope fuel' n.TemplateName st' = .ok n
              ∧ n.Fields.length = st'.length)
            ∨ n.Fields = []) := by
  intro fuel
  induction fuel with
  | zero => intro name st t h; simp [parseStructType] at h
  | succ fuel ih =>
    intro name st t h
    obtain ⟨fields, hloop, ht⟩ := (parseStructType_ok_iff scope fuel name st t).mp h
    have hlen : t.Fields.length = st.length := by
      have := congrArg List.length (parseStructType_field_names scope (fuel + 1) name st t h)
      simpa using this
    have hchildren := parseStructType.loop_invariant
      (fun c => ∀ n ∈ TypeTree.nodes c,
        n.TemplateDefaultValue = Value.nil
        ∧ ((∃ (fuel' : Nat) (st' : List Field),
              parseStructType scope fuel' n.TemplateName st' = .ok n
              ∧ n.Fields.length = st'.length)
            ∨ n.Fields = []))
      scope (parseStructType scope fuel) ih
      (by
        intro kind nm n hn
        simp only [TypeTree.nodes, TypeTree.nodesList, List.mem_singleton] at hn
        subst hn
        exact ⟨rfl, Or.inr rfl⟩)
      st [] fields (by simp) hloop
    intro n hn
    subst ht
    simp only [TypeTree.nodes, List.mem_cons] at hn
    rcases hn with hn | hn
    · subst hn
      exact ⟨rfl, Or.inl ⟨fuel + 1, st, h, hlen⟩⟩
    · obtain ⟨c, hc, hnc⟩ := TypeTree.mem_nodesList n fields hn
      exact hchildren c hc n hnc

/-- A node of Kind `struct` is a struct node when no identifier is `struct`: it is the
node that `parseStructType` returns for some struct. -/
theorem parseStructType_kind_struct (scope : Scope) (hscope : plainIdentScope scope = true) :
    ∀ (fuel : Nat) (name : String) (st : List Field) (t : TypeTree),
      plainIdents st = true → parseStructType scope fuel name st = .ok t →
      ∀ n ∈ TypeTree.nodes t, n.Kind = "struct" →
        ∃ (fuel' : Nat) (st' : List Field),
          parseStructType scope fuel' n.TemplateName st' = .ok n := by
  intro fuel
  induction fuel with
  | zero => intro name st t _ h; simp [parseStructType] at h
  | succ fuel ih =>
    intro name st t hst h
    obtain ⟨fields, hloop, ht⟩ := (parseStructType_ok_iff scope fuel name st t).mp h
    obtain ⟨children, hres, hall⟩ :=
      parseStructType.loop_children scope _ st [] fields hloop
    simp only [List.nil_append] at hres
    subst hres
    have hchildren : ∀ c ∈ fields, ∀ n ∈ TypeTree.nodes c, n.Kind = "struct" →
        ∃ (fuel' : Nat) (st' : List Field),
          parseStructType scope fuel' n.TemplateName st' = .ok n := by
      clear hloop h ht
      induction hall with
      | nil => intro c hc; simp at hc
      | @cons f c fs cs hfc _ ihall =>
        simp only [plainIdents, Bool.and_eq_true] at hst
        intro c' hc'
        simp only [List.mem_cons] at hc'
        rcases hc' with rfl | hc'
        · obtain ⟨names, typ, tag⟩ := f
          simp only [plainIdentField] at hst
          cases typ with
          | structType S =>
            simp only [childMatches] at hfc
            exact ih _ S _ (by simpa [plainIdentType] using hst.1) hfc
          | starExpr x =>
            cases x with
            | ident T =>
              simp only [childMatches] at hfc
              obtain ⟨S, hobj, hS⟩ := hfc
              have hplain : plainIdents S = true := by
                have := (List.all_eq_true.mp hscope) _ (Scope.obj?_mem scope T _ hobj)
                simpa using this
              exact ih _ S _ hplain hS
            | _ => simp [childMatches] at hfc
          | ident x =>
            simp only [childMatches] at hfc
            subst hfc
            intro n hn hk
            simp only [TypeTree.nodes, TypeTree.nodesList, List.mem_singleton] at hn
            subst hn
            simp only [plainIdentType, decide_eq_true_eq] at hst
            exact absurd hk hst.1
          | selectorExpr _ _ =>
            simp only [childMatches] at hfc
            subst hfc
            intro n hn hk
            simp only [TypeTree.nodes, TypeTree.nodesList, List.mem_singleton] at hn
            subst hn
            simp [TypeTree.Kind] at hk
          | arrayType _ =>
            simp only [childMatches] at hfc
            subst hfc
            intro n hn hk
            simp only [TypeTree.nodes, TypeTree.nodesList, List.mem_singleton] at hn
            subst hn
            simp [TypeTree.Kind] at hk
          | mapType _ _ =>
            simp only [childMatches] at hfc
            subst hfc
            intro n hn hk
            simp only [TypeTree.nodes, TypeTree.nodesList, List.mem_singleton] at hn
            subst hn
            simp [TypeTree.Kind] at hk
          | funcType =>
            simp only [childMatches] at hfc
            subst hfc
            intro n hn hk
            simp only [TypeTree.nodes, TypeTree.nodesList, List.mem_singleton] at hn
            subst hn
            simp [TypeTree.Kind] at hk
          | other _ =>
            simp only [childMatches] at hfc
            subst hfc
            intro n hn hk
            simp only [TypeTree.nodes, TypeTree.nodesList, List.mem_singleton] at hn
            subst hn
            simp [TypeTree.Kind] at hk
        · exact ihall hst.2 c' hc'
    intro n hn hk
    subst ht
    simp only [TypeTree.nodes, List.mem_cons] at hn
    rcases hn with hn | hn
    · subst hn
      exact ⟨fuel + 1, st, h⟩
    · obtain ⟨c, hc, hnc⟩ := TypeTree.mem_nodesList n fields hn
      exact hchildren c hc n hnc hk

/-- C17, amended: in every Type tree built by `parseStructType`, no node has a default
value, every node with children has Kind `struct`, and every node is either a
struct node, the node of Kind `struct` that `parseStructType` returns for a struct
type, with exactly one child per field of that struct, or a node without
children.  A node has non-empty Fields exactly when it is the node of a struct
type with at least one field; and as no identifier is the keyword `struct`, the
nodes of Kind `struct` are the struct nodes, so a node has non-empty Fields
exactly when its Kind is `struct` and its struct has at least one field: only a
struct without fields gives a node of Kind `struct` without children. -/
theorem c17_struct_node_or_leaf (scope : Scope) (fuel : Nat) (name : String)
    (st : List Field) (t : TypeTree) (h : parseStructType scope fuel name st = .ok t) :
    ∀ n ∈ TypeTree.nodes t,
      n.TemplateDefaultValue = Value.nil
      ∧ (n.Fields ≠ [] → n.Kind = "struct")
      ∧ ((∃ (fuel' : Nat) (st' : List Field),
            parseStructType scope fuel' n.TemplateName st' = .ok n
            ∧ n.Kind = "struct"
            ∧ n.Fields.length = st'.length
            ∧ (n.Fields ≠ [] ↔ st' ≠ []))
          ∨ n.Fields = [])
      ∧ (n.Fields ≠ [] ↔
          ∃ (fuel' : Nat) (st' : List Field),
            parseStructType scope fuel' n.TemplateName st' = .ok n ∧ st' ≠ [])
      ∧ (plainIdentScope scope = true → plainIdents st = true →
          (n.Kind = "struct" ↔
            ∃ (fuel' : Nat) (st' : List Field),
              parseStructType scope fuel' n.TemplateName st' = .ok n)
          ∧ (n.Fields ≠ [] ↔
              n.Kind = "struct"
              ∧ ∃ (fuel' : Nat) (st' : List Field),
                  parseStructType scope fuel' n.TemplateName st' = .ok n ∧ st' ≠ [])) := by
  intro n hn
  obtain ⟨hdflt, hkind⟩ := parseStructType_nodes scope fuel name st t h n hn
  have hiff : ∀ (st' : List Field), n.Fields.length = st'.length →
      (n.Fields ≠ [] ↔ st' ≠ []) := by
    intro st' hlen
    cases hf : n.Fields with
    | nil =>
      rw [hf] at hlen
      cases st' with
      | nil => simp
      | cons f fs => simp at hlen
    | cons c cs =>
      rw [hf] at hlen
      cases st' with
      | nil => simp at hlen
      | cons f fs => simp
  have hlen_of : ∀ (fuel' : Nat) (st' : List Field),
      parseStructType scope fuel' n.TemplateName st' = .ok n →
      n.Fields.length = st'.length := by
    intro fuel' st' hp
    have := congrArg List.length (parseStructType_field_names scope fuel' _ st' n hp)
    simpa using this
  have hchildren : n.Fields ≠ [] → ∃ (fuel' : Nat) (st' : List Field),
      parseStructType scope fuel' n.TemplateName st' = .ok n ∧ st' ≠ [] := by
    intro hne
    rcases hkind with ⟨fuel', st', hp, hlen⟩ | hnil
    · exact ⟨fuel', st', hp, (hiff st' hlen).mp hne⟩
    · exact absurd hnil hne
  have hstruct : n.Fields ≠ [] → n.Kind = "struct" := by
    intro hne
    obtain ⟨fuel', st', hp, _⟩ := hchildren hne
    exact (parseStructType_root scope fuel' _ st' n hp).1
  refine ⟨hdflt, hstruct, ?_, ⟨hchildren, ?_⟩, ?_⟩
  · rcases hkind with ⟨fuel', st', hp, hlen⟩ | hnil
    · exact Or.inl ⟨fuel', st', hp, (parseStructType_root scope fuel' _ st' n hp).1, hlen,
        hiff st' hlen⟩
    · exact Or.inr hnil
  · rintro ⟨fuel', st', hp, hst'⟩
    exact (hiff st' (hlen_of fuel' st' hp)).mpr hst'
  · intro hscope hst
    refine ⟨⟨?_, ?_⟩, ⟨fun hne => ⟨hstruct hne, hchildren hne⟩, ?_⟩⟩
    · exact parseStructType_kind_struct scope hscope fuel name st t hst h n hn
    · rintro ⟨fuel', st', hp⟩
      exact (parseStructType_root scope fuel' _ st' n hp).1
    · rintro ⟨_, fuel', st', hp, hst'⟩
      exact (hiff st' (hlen_of fuel' st' hp)).mpr hst'

/-- Instance of C17 (amended) at the root of the scenario tree. -/
theorem c17_struct_node_or_leaf_witness :
    (TypeTree.mk "struct" "" .nil
        [.mk "string" "name" .nil [],
          .mk "struct" "server" .nil [.mk "int" "port" .nil []]]).TemplateDefaultValue
      = Value.nil :=
  (c17_struct_node_or_leaf configScope 2 "" configFields
    (.mk "struct" "" .nil
      [.mk "string" "name" .nil [], .mk "struct" "server" .nil [.mk "int" "port" .nil []]])
    (by decide) _ (by decide)).1

/-- C18: the action of `main` does not read the result of `ioutil.WriteFile`.  Its
outcome is the same whether the write fails or not, and on the scenario file a
failed write ends in the nil error of a successful run. -/
theorem c18_write_error_dropped :
    (∀ (opts : TemplateOptions) (fuel : Nat) (parsed : Except String (List Decl))
        (existing : Option Document) (marshalErr : Option String) (err : String),
        mainAction opts fuel ⟨parsed, existing, marshalErr, some err⟩
          = mainAction opts fuel ⟨parsed, existing, marshalErr, none⟩)
    ∧ mainAction ⟨"Config", true⟩ 2
        ⟨.ok configDecls, none, none, some "open config.json.template: permission denied"⟩
      = .ok none := by
  refine ⟨fun _ _ _ _ _ _ => rfl, by decide⟩

theorem mergeMapValues_nil_right (a : Document) : mergeMapValues a [] = a := by
  induction a with
  | nil => simp [mergeMapValues]
  | cons e rest ih =>
    obtain ⟨k, v⟩ := e
    rw [mergeMapValues_cons, ih]
    simp [Document.index, Document.get?, mergeValue_nil]

/-- A nested document of `a` stays a nested document under the loop body: it is
merged with some document. -/
theorem mergeValue_object (am : Document) (bk : Value) :
    ∃ bm, mergeValue (.object am) bk = .object (mergeMapValues am bm) := by
  cases bk with
  | object bm => exact ⟨bm, mergeValue_object_object am bm⟩
  | nil => exact ⟨[], by simp [mergeValue, mergeMapValues_nil_right]⟩
  | bool _ => exact ⟨[], by simp [mergeValue, mergeMapValues_nil_right]⟩
  | number _ => exact ⟨[], by simp [mergeValue, mergeMapValues_nil_right]⟩
  | string _ => exact ⟨[], by simp [mergeValue, mergeMapValues_nil_right]⟩
  | array _ => exact ⟨[], by simp [mergeValue, mergeMapValues_nil_right]⟩

theorem at?_leaf (w v : Value) (p : List String) (hw : w.isObject = false)
    (h : Value.at? w p = some v) : p = [] ∧ v = w := by
  cases p with
  | nil =>
    simp only [Value.at?, Option.some.injEq] at h
    exact ⟨rfl, h.symm⟩
  | cons k p => cases w <;> simp [Value.at?, Value.isObject] at h hw

theorem at?_mergeMapValues_some (p : List String) :
    ∀ (fresh existing : Document) (v : Value),
      Value.at? (.object fresh) p = some v →
      ∃ v', Value.at? (.object (mergeMapValues fresh existing)) p = some v'
        ∧ ∀ m, v = .object m → ∃ m', v' = .object m' ∧ Document.keys m' = Document.keys m := by
  induction p with
  | nil =>
    intro fresh existing v h
    simp only [Value.at?, Option.some.injEq] at h
    subst h
    refine ⟨_, rfl, ?_⟩
    intro m hm
    cases hm
    exact ⟨_, rfl, keys_mergeMapValues fresh existing⟩
  | cons k p ih =>
    intro fresh existing v h
    simp only [Value.at?] at h ⊢
    rw [get?_mergeMapValues]
    cases hk : Document.get? fresh k with
    | none => rw [hk] at h; cases h
    | some w =>
      rw [hk] at h
      simp only [Option.map_some'] at h ⊢
      cases hw : w.isObject with
      | true =>
        cases w with
        | object am =>
          obtain ⟨bm, hbm⟩ := mergeValue_object am (Document.index existing k)
          rw [hbm]
          exact ih am bm v h
        | _ => simp [Value.isObject] at hw
      | false =>
        obtain ⟨hp, hv⟩ := at?_leaf w v p hw h
        subst hp; subst hv
        refine ⟨mergeValue v (Document.index existing k), by simp [Value.at?], ?_⟩
        intro m hm
        rw [hm] at hw
        simp [Value.isObject] at hw

/-- C19: `mergeMapValues` adds no key to and removes no key from the maps of `fresh`.
Every key-path of `fresh` is a key-path of the result, and where `fresh` holds a
nested document (the whole document for the empty path) the result holds a
nested document with the same keys; only values at leaves of `fresh` change. -/
theorem c19_keys_of_fresh_kept (fresh existing : Document) (p : List String) (v : Value)
    (h : Document.at? fresh p = some v) :
    ∃ v', Document.at? (mergeMapValues fresh existing) p = some v'
      ∧ ∀ m, v = Value.object m →
          ∃ m', v' = Value.object m' ∧ Document.keys m' = Document.keys m :=
  at?_mergeMapValues_some p fresh existing v h

/-- Instance of C19: the path `server` of the scenario document. -/
theorem c19_keys_of_fresh_kept_witness :
    ∃ v', Document.at?
        (mergeMapValues [("name", Value.nil), ("server", Value.object [("port", Value.nil)])]
          existingTemplate) ["server"] = some v'
      ∧ ∀ m, Value.object [("port", Value.nil)] = Value.object m →
          ∃ m', v' = Value.object m' ∧ Document.keys m' = Document.keys m :=
  c19_keys_of_fresh_kept [("name", Value.nil), ("server", Value.object [("port", Value.nil)])]
    existingTemplate ["server"] (Value.object [("port", Value.nil)]) (by decide)

/-- C20: on a file whose struct types point only to declared struct types of smaller
rank (an acyclic reference graph), with fuel for the depth of the types,
`parseStructType` is not cut short on any such struct, and it returns a tree when
every field has a tag.  It does not return a tree in general: the acyclic file
`type Limits struct { Max int }`, without tags, only ever panics. -/
theorem c20_terminates_on_acyclic (scope : Scope) (rank : String → Nat) (b : Nat)
    (st : List Field) (name : String) (fuel : Nat)
    (hfuel : fieldsDepth st + 1 + b * scopeDepth scope ≤ fuel) :
    (resolvableScope scope rank false = true →
      resolvableFields scope rank false b st = true →
      parseStructType scope fuel name st ≠ .outOfFuel)
    ∧ (resolvableScope scope rank true = true →
      resolvableFields scope rank true b st = true →
      ∃ t, parseStructType scope fuel name st = .ok t)
    ∧ (resolvableScope [("Limits", .typeSpec (.structType [.mk ["Max"] (.ident "int") none]))]
          (fun _ => 0) false = true
      ∧ ∀ (fuel' : Nat) (t : TypeTree),
          parseStructType [("Limits", .typeSpec (.structType [.mk ["Max"] (.ident "int") none]))]
            fuel' "" [.mk ["Max"] (.ident "int") none] ≠ .ok t) := by
  refine ⟨?_, ?_, by decide, ?_⟩
  · intro hscope hst
    exact (parseStructType_total scope rank false hscope fuel b st name hst hfuel).1
  · intro hscope hst
    exact (parseStructType_total scope rank true hscope fuel b st name hst hfuel).2 rfl
  · intro fuel' t
    refine parseStructType_never_ok _ _ [] ?_ fuel' "" [] t
    intro recur acc res h
    rw [parseStructType.loop_untagged] at h
    cases h

/-- Instance of C20 on the scenario: with fuel 3 the root `Config` resolves. -/
theorem c20_terminates_on_acyclic_witness :
    ∃ t, parseStructType configScope 3 "" configFields = .ok t :=
  (c20_terminates_on_acyclic configScope configRank 2 configFields "" 3 (by decide)).2.1
    (by decide) (by decide)

end ViperTemplate
